import Mathlib

/-
Verification of the voxel-world simulation core (chunked block storage,
coordinate transforms, terrain generation, meshing, and the column wire
format) against its specification.  The Rust sources are shallowly
embedded: machine integers are modelled as `Int` with explicit wrapping
at 2^32 where the source uses wrapping operations, fixed-size arrays as
functions out of `Fin 16`, and growable vectors as lists.
-/

set_option maxRecDepth 10000

/-! ## Machine-integer helpers (i32 semantics with release-mode wrapping) -/

/-- Wrap an unbounded integer into the i32 range [-2^31, 2^31). -/
def wrap32 (n : Int) : Int := (n + 2 ^ 31) % 2 ^ 32 - 2 ^ 31

/-- An integer is representable as an i32. -/
def InI32 (n : Int) : Prop := -(2 ^ 31) ≤ n ∧ n < 2 ^ 31

instance (n : Int) : Decidable (InI32 n) := by unfold InI32; infer_instance

/-- Rust `i32::wrapping_div` (truncating division, wrapped). -/
def wrapping_div (a b : Int) : Int := wrap32 (a.tdiv b)

/-- Rust `i32::wrapping_rem` (truncating remainder, wrapped). -/
def wrapping_rem (a b : Int) : Int := wrap32 (a.tmod b)

/-- Rust `i32::wrapping_sub`. -/
def wrapping_sub (a b : Int) : Int := wrap32 (a - b)

/-- Rust `i32::wrapping_add`. -/
def wrapping_add (a b : Int) : Int := wrap32 (a + b)

/-- Rust `i32::wrapping_mul` (also the release-mode behaviour of `*`). -/
def wrapping_mul (a b : Int) : Int := wrap32 (a * b)

/-! ## Coordinate system (src/simulation/position.rs) -/

/-- Integer 3-vector, as glam `IVec3`. -/
structure IVec3 where
  x : Int
  y : Int
  z : Int
deriving DecidableEq, Repr

def IVec3.splat (v : Int) : IVec3 := ⟨v, v, v⟩

structure ChunkPosition where
  index : IVec3
deriving DecidableEq, Repr

structure BlockPosition where
  index : IVec3
deriving DecidableEq, Repr

/-- Chunk side length (`Chunk::SIZE`). -/
def chunkSize : Int := 16

/-- The `div_floor` helper inside `BlockPosition::chunk`, copied from the
standard library by the source: truncating division adjusted downward when
the remainder sign disagrees with the divisor sign. -/
def div_floor (lhs rhs : Int) : Int :=
  let d := wrapping_div lhs rhs
  let r := wrapping_rem lhs rhs
  if (r > 0 ∧ rhs < 0) ∨ (r < 0 ∧ rhs > 0) then wrapping_sub d 1 else d

/-- `ChunkPosition::block`: multiply each coordinate by 16. -/
def ChunkPosition.block (c : ChunkPosition) : BlockPosition :=
  ⟨⟨wrapping_mul c.index.x chunkSize,
    wrapping_mul c.index.y chunkSize,
    wrapping_mul c.index.z chunkSize⟩⟩

/-- `BlockPosition::chunk`: floor-divide each coordinate by 16. -/
def BlockPosition.chunk (p : BlockPosition) : ChunkPosition :=
  ⟨⟨div_floor p.index.x chunkSize,
    div_floor p.index.y chunkSize,
    div_floor p.index.z chunkSize⟩⟩

/-- `BlockPosition::plus`: componentwise wrapping addition. -/
def BlockPosition.plus (p : BlockPosition) (direction : IVec3) : BlockPosition :=
  ⟨⟨wrapping_add p.index.x direction.x,
    wrapping_add p.index.y direction.y,
    wrapping_add p.index.z direction.z⟩⟩

/-- `ChunkPosition::plus`. -/
def ChunkPosition.plus (c : ChunkPosition) (direction : IVec3) : ChunkPosition :=
  (c.block.plus
    ⟨wrapping_mul direction.x chunkSize,
     wrapping_mul direction.y chunkSize,
     wrapping_mul direction.z chunkSize⟩).chunk

theorem neg_tmod_sixteen (a : Int) : (-a).tmod 16 = -(a.tmod 16) := by
  rw [Int.tmod_def, Int.tmod_def, Int.neg_tdiv]
  ring

theorem tmod_sixteen_facts (n : Int) :
    16 * n.tdiv 16 + n.tmod 16 = n ∧ -16 < n.tmod 16 ∧ n.tmod 16 < 16 ∧
      (0 ≤ n → 0 ≤ n.tmod 16) ∧ (n ≤ 0 → n.tmod 16 ≤ 0) := by
  refine ⟨Int.tdiv_add_tmod n 16, ?_, Int.tmod_lt_of_pos n (by norm_num), ?_, ?_⟩
  · rcases le_or_lt 0 n with h | h
    · have := Int.tmod_nonneg (a := n) 16 h
      omega
    · have h1 : (-(-n)).tmod 16 = -((-n).tmod 16) := neg_tmod_sixteen (-n)
      have h2 : (-n).tmod 16 < 16 := Int.tmod_lt_of_pos (-n) (by norm_num)
      simp only [neg_neg] at h1
      omega
  · exact fun h => Int.tmod_nonneg 16 h
  · intro h
    have h1 : (-(-n)).tmod 16 = -((-n).tmod 16) := neg_tmod_sixteen (-n)
    have h2 : 0 ≤ (-n).tmod 16 := Int.tmod_nonneg 16 (by omega)
    simp only [neg_neg] at h1
    omega

/-- Round-trip inequality on one axis, plus identification of `div_floor`
with true floor division (Lean's `/` on `Int` rounds toward negative
infinity for a positive divisor). -/
theorem div_floor_sixteen_bounds (n : Int) (h : InI32 n) :
    wrapping_mul (div_floor n 16) 16 ≤ n ∧
      n < wrapping_mul (div_floor n 16) 16 + 16 ∧
      div_floor n 16 = n / 16 := by
  obtain ⟨h1, h2⟩ := h
  obtain ⟨heq, hlb, hub, hpos, hneg⟩ := tmod_sixteen_facts n
  unfold div_floor wrapping_div wrapping_rem wrapping_sub wrapping_mul wrap32
  simp only []
  split_ifs <;> omega

/-- Claim C1: for every block position with i32 coordinates (including
`i32::MIN` and `i32::MAX`), `p.chunk().block() <= p < p.chunk().block() + 16`
holds on every axis; moreover `BlockPosition::chunk` computes the floor
division (toward negative infinity) of each coordinate by 16. -/
theorem coordinate_roundtrip (p : BlockPosition)
    (hx : InI32 p.index.x) (hy : InI32 p.index.y) (hz : InI32 p.index.z) :
    (p.chunk.block.index.x ≤ p.index.x ∧ p.index.x < p.chunk.block.index.x + 16 ∧
       p.chunk.index.x = p.index.x / 16) ∧
    (p.chunk.block.index.y ≤ p.index.y ∧ p.index.y < p.chunk.block.index.y + 16 ∧
       p.chunk.index.y = p.index.y / 16) ∧
    (p.chunk.block.index.z ≤ p.index.z ∧ p.index.z < p.chunk.block.index.z + 16 ∧
       p.chunk.index.z = p.index.z / 16) := by
  obtain ⟨hx1, hx2, hx3⟩ := div_floor_sixteen_bounds p.index.x hx
  obtain ⟨hy1, hy2, hy3⟩ := div_floor_sixteen_bounds p.index.y hy
  obtain ⟨hz1, hz2, hz3⟩ := div_floor_sixteen_bounds p.index.z hz
  exact ⟨⟨hx1, hx2, hx3⟩, ⟨hy1, hy2, hy3⟩, ⟨hz1, hz2, hz3⟩⟩

/-- Witness for C1 at the extreme corner (i32::MIN, i32::MAX, 5). -/
theorem coordinate_roundtrip_witness :
    let p : BlockPosition := ⟨⟨-(2 ^ 31), 2 ^ 31 - 1, 5⟩⟩
    (p.chunk.block.index.x ≤ p.index.x ∧ p.index.x < p.chunk.block.index.x + 16 ∧
       p.chunk.index.x = p.index.x / 16) ∧
    (p.chunk.block.index.y ≤ p.index.y ∧ p.index.y < p.chunk.block.index.y + 16 ∧
       p.chunk.index.y = p.index.y / 16) ∧
    (p.chunk.block.index.z ≤ p.index.z ∧ p.index.z < p.chunk.block.index.z + 16 ∧
       p.chunk.index.z = p.index.z / 16) :=
  coordinate_roundtrip ⟨⟨-(2 ^ 31), 2 ^ 31 - 1, 5⟩⟩
    (by decide) (by decide) (by decide)

/-! ## Chunk and transparency (src/chunk.rs) -/

inductive Block where
  | Air
  | Dirt
  | Stone
deriving DecidableEq, Repr

/-- `Block::transparent`. -/
def Block.transparent : Block → Bool
  | .Air => true
  | .Dirt => false
  | .Stone => false

/-- Discriminants of the `Transparency` enum. -/
inductive Transparency where
  | PosX
  | NegX
  | PosY
  | NegY
  | PosZ
  | NegZ
  | Computed
deriving DecidableEq, Repr

/-- The `as u8` discriminant of a `Transparency` value. -/
def Transparency.toBit : Transparency → Nat
  | .PosX => 0
  | .NegX => 1
  | .PosY => 2
  | .NegY => 3
  | .PosZ => 4
  | .NegZ => 5
  | .Computed => 6

/-- Dense 16x16x16 block storage, indexed `blocks[x][y][z]`. -/
def BlockArray := Fin 16 → Fin 16 → Fin 16 → Block

instance : DecidableEq BlockArray := by unfold BlockArray; infer_instance

structure Chunk where
  blocks : BlockArray
  transparency : Nat
  in_mesh_queue : Bool
  non_air_block_count : Nat

/-- `Chunk::MAX_BLOCK_COUNT` (16^3). -/
def maxBlockCount : Nat := 4096

/-- `Chunk::default()`: all air, transparency 0, not queued, count 0. -/
def Chunk.defaultChunk : Chunk :=
  { blocks := fun _ _ _ => Block.Air
    transparency := 0
    in_mesh_queue := false
    non_air_block_count := 0 }

/-- `Chunk::get_transparency`. -/
def Chunk.get_transparency (c : Chunk) (direction : Transparency) : Bool :=
  (c.transparency &&& (1 <<< direction.toBit)) != 0

/-- Iteration values of `(0..16).step_by(step)`. -/
def stepBy (step : Nat) : List Nat :=
  (List.range 16).filter (fun i => i % step = 0)

/-- Totalized array access for `usize` indices produced by the boundary
scans (all in range by construction). -/
def blockAt (blocks : BlockArray) (i j k : Nat) : Block :=
  blocks ⟨i % 16, Nat.mod_lt _ (by norm_num)⟩ ⟨j % 16, Nat.mod_lt _ (by norm_num)⟩
    ⟨k % 16, Nat.mod_lt _ (by norm_num)⟩

/-- The `check` closure of `compute_transparency`: does the scanned layer
contain a transparent block?  (The source's early-exit loop sets the bit
exactly when some scanned block is transparent.) -/
def checkLayer (blocks : BlockArray) (ox oy oz dx dy dz : Nat) : Bool :=
  (stepBy dx).any fun x => (stepBy dy).any fun y => (stepBy dz).any fun z =>
    (blockAt blocks (ox + x) (oy + y) (oz + z)).transparent

/-- `Chunk::compute_transparency`, acting on the `transparency` field. -/
def Chunk.compute_transparency (c : Chunk) : Chunk :=
  if c.non_air_block_count = maxBlockCount then
    { c with transparency := 1 <<< Transparency.Computed.toBit }
  else if c.non_air_block_count = 0 then
    { c with transparency := 255 }
  else
    { c with transparency :=
        (1 <<< Transparency.Computed.toBit) |||
        (if checkLayer c.blocks 15 0 0 16 1 1 then 1 <<< Transparency.PosX.toBit else 0) |||
        (if checkLayer c.blocks 0 15 0 1 16 1 then 1 <<< Transparency.PosY.toBit else 0) |||
        (if checkLayer c.blocks 0 0 15 1 1 16 then 1 <<< Transparency.PosZ.toBit else 0) |||
        (if checkLayer c.blocks 0 0 0 16 1 1 then 1 <<< Transparency.NegX.toBit else 0) |||
        (if checkLayer c.blocks 0 0 0 1 16 1 then 1 <<< Transparency.NegY.toBit else 0) |||
        (if checkLayer c.blocks 0 0 0 1 1 16 then 1 <<< Transparency.NegZ.toBit else 0) }

/-- All 4096 blocks of a chunk, in `[x][y][z]` iteration order. -/
def allBlocksList (blocks : BlockArray) : List Block :=
  (List.finRange 16).flatMap fun x =>
    (List.finRange 16).flatMap fun y =>
      (List.finRange 16).map fun z => blocks x y z

/-- Number of non-Air entries of the block array. -/
def nonAirCount (blocks : BlockArray) : Nat :=
  (allBlocksList blocks).countP (fun b => decide (b ≠ Block.Air))

theorem mem_allBlocksList (blocks : BlockArray) (x y z : Fin 16) :
    blocks x y z ∈ allBlocksList blocks := by
  unfold allBlocksList
  refine List.mem_flatMap.mpr ⟨x, List.mem_finRange x, ?_⟩
  refine List.mem_flatMap.mpr ⟨y, List.mem_finRange y, ?_⟩
  exact List.mem_map.mpr ⟨z, List.mem_finRange z, rfl⟩

theorem length_allBlocksList (blocks : BlockArray) :
    (allBlocksList blocks).length = 4096 := by
  unfold allBlocksList
  simp [List.length_flatMap, Function.comp_def, List.map_const']

/-- Brute-force boundary scan of one face (from the claim's wording:
bit `d` is set iff at least one block of that 16x16 boundary layer is
transparent). -/
def bruteFaceBit (blocks : BlockArray) : Transparency → Bool
  | .PosX => (List.finRange 16).any fun y => (List.finRange 16).any fun z =>
      (blocks 15 y z).transparent
  | .NegX => (List.finRange 16).any fun y => (List.finRange 16).any fun z =>
      (blocks 0 y z).transparent
  | .PosY => (List.finRange 16).any fun x => (List.finRange 16).any fun z =>
      (blocks x 15 z).transparent
  | .NegY => (List.finRange 16).any fun x => (List.finRange 16).any fun z =>
      (blocks x 0 z).transparent
  | .PosZ => (List.finRange 16).any fun x => (List.finRange 16).any fun y =>
      (blocks x y 15).transparent
  | .NegZ => (List.finRange 16).any fun x => (List.finRange 16).any fun y =>
      (blocks x y 0).transparent
  | .Computed => true

theorem forall_mem_allBlocksList {blocks : BlockArray} {p : Block → Prop}
    (h : ∀ x y z, p (blocks x y z)) : ∀ b ∈ allBlocksList blocks, p b := by
  intro b hb
  unfold allBlocksList at hb
  obtain ⟨x, -, hb⟩ := List.mem_flatMap.mp hb
  obtain ⟨y, -, hb⟩ := List.mem_flatMap.mp hb
  obtain ⟨z, -, rfl⟩ := List.mem_map.mp hb
  exact h x y z

theorem all_air_of_nonAirCount_eq_zero {blocks : BlockArray}
    (h : nonAirCount blocks = 0) : ∀ x y z, blocks x y z = Block.Air := by
  intro x y z
  unfold nonAirCount at h
  have := List.countP_eq_zero.mp h _ (mem_allBlocksList blocks x y z)
  simpa using this

theorem no_air_of_nonAirCount_eq_max {blocks : BlockArray}
    (h : nonAirCount blocks = 4096) : ∀ x y z, blocks x y z ≠ Block.Air := by
  intro x y z
  unfold nonAirCount at h
  rw [← length_allBlocksList blocks] at h
  have := List.countP_eq_length.mp h _ (mem_allBlocksList blocks x y z)
  simpa using this

theorem transparent_eq_false_of_ne_air {b : Block} (h : b ≠ Block.Air) :
    b.transparent = false := by
  cases b with
  | Air => exact absurd rfl h
  | Dirt => rfl
  | Stone => rfl

/-- Claim C3: for a chunk whose `non_air_block_count` is consistent with its
block array and equals 0 or 4096, `compute_transparency` produces exactly the
six face bits of a brute-force scan of the six 16x16 boundary layers, and
sets the `Computed` marker bit.  In particular count 4096 yields all faces
opaque and count 0 all faces transparent. -/
theorem compute_transparency_shortcut (c : Chunk)
    (hc : c.non_air_block_count = nonAirCount c.blocks)
    (hcase : c.non_air_block_count = 0 ∨ c.non_air_block_count = maxBlockCount) :
    (∀ d : Transparency, d ≠ Transparency.Computed →
       c.compute_transparency.get_transparency d = bruteFaceBit c.blocks d) ∧
    c.compute_transparency.get_transparency Transparency.Computed = true := by
  rcases hcase with h0 | hmax
  · have hall : ∀ x y z, c.blocks x y z = Block.Air :=
      all_air_of_nonAirCount_eq_zero (hc ▸ h0)
    have htr : c.compute_transparency.transparency = 255 := by
      unfold Chunk.compute_transparency
      rw [h0]
      norm_num [maxBlockCount]
    constructor
    · intro d hd
      have hget : c.compute_transparency.get_transparency d = true := by
        unfold Chunk.get_transparency
        rw [htr]
        cases d <;> first | rfl | exact absurd rfl hd
      rw [hget]
      symm
      cases d <;> simp only [bruteFaceBit, hall] <;> first | decide | exact absurd rfl hd
    · unfold Chunk.get_transparency
      rw [htr]
      rfl
  · have hall : ∀ x y z, c.blocks x y z ≠ Block.Air :=
      no_air_of_nonAirCount_eq_max (hc ▸ hmax)
    have htrf : ∀ x y z, (c.blocks x y z).transparent = false := fun x y z =>
      transparent_eq_false_of_ne_air (hall x y z)
    have htr : c.compute_transparency.transparency = 64 := by
      unfold Chunk.compute_transparency
      rw [hmax]
      norm_num [maxBlockCount]
      decide
    constructor
    · intro d hd
      have hget : c.compute_transparency.get_transparency d = false := by
        unfold Chunk.get_transparency
        rw [htr]
        cases d <;> first | rfl | exact absurd rfl hd
      rw [hget]
      symm
      cases d <;> simp only [bruteFaceBit, htrf] <;> first | decide | exact absurd rfl hd
    · unfold Chunk.get_transparency
      rw [htr]
      rfl

theorem nonAirCount_allAir : nonAirCount (fun _ _ _ => Block.Air) = 0 := by
  unfold nonAirCount
  exact List.countP_eq_zero.mpr
    (forall_mem_allBlocksList (p := fun b => ¬ (decide (b ≠ Block.Air) = true))
      (fun _ _ _ => by decide))

/-- Witness for C3 on the default (all-air) chunk. -/
theorem compute_transparency_shortcut_witness :
    (Chunk.defaultChunk.non_air_block_count = nonAirCount Chunk.defaultChunk.blocks) ∧
    ((∀ d : Transparency, d ≠ Transparency.Computed →
       Chunk.defaultChunk.compute_transparency.get_transparency d =
         bruteFaceBit Chunk.defaultChunk.blocks d) ∧
     Chunk.defaultChunk.compute_transparency.get_transparency Transparency.Computed = true) :=
  ⟨nonAirCount_allAir.symm,
   compute_transparency_shortcut Chunk.defaultChunk nonAirCount_allAir.symm (Or.inl rfl)⟩

/-! ## World / chunk store (src/simulation/world.rs) -/

structure World where
  view_distance : Nat
  highest_generated_chunk : Int
  lowest_generated_chunk : Int
  chunks : List Chunk
  position_to_index : ChunkPosition → Option Nat
  position_has_mesh : ChunkPosition → Bool
  generation_queue : List (Int × Int × Int)
  mesh_queue : List ChunkPosition

/-- `World::new`: one shared all-air chunk at index 0 with all-transparent
mask, a generation queue of the top chunk layer sorted by squared
horizontal distance, and an empty position map. -/
def World.new (view_distance : Nat) (height : Nat) : World :=
  let lowest : Int := (-(height : Int)).tdiv 2
  let highest : Int := lowest + height - 1
  let v : Int := view_distance
  let unsorted : List (Int × Int × Int) :=
    (List.range (2 * view_distance + 1)).flatMap fun xi =>
      (List.range (2 * view_distance + 1)).map fun zi =>
        ((xi : Int) - v, highest, (zi : Int) - v)
  { view_distance := view_distance
    highest_generated_chunk := highest
    lowest_generated_chunk := lowest
    chunks := [{ Chunk.defaultChunk with transparency := 255 }]
    position_to_index := fun _ => none
    position_has_mesh := fun _ => false
    generation_queue :=
      unsorted.mergeSort fun a b =>
        decide (a.1 * a.1 + a.2.2 * a.2.2 ≤ b.1 * b.1 + b.2.2 * b.2.2)
    mesh_queue := [] }

/-- `World::get_chunk`. -/
def World.getChunk (w : World) (p : ChunkPosition) : Option Chunk :=
  (w.position_to_index p).bind fun i => w.chunks[i]?

/-- Replace the chunk stored at vector index `i`. -/
def World.setChunkAt (w : World) (i : Nat) (c : Chunk) : World :=
  { w with chunks := w.chunks.set i c }

/-- `World::get_chunk_mut`: resolves a position to a mutable chunk index,
cloning the shared air chunk (index 0) into a fresh slot first when
`clone_air` is set; with `clone_air` false a position mapped to the air
chunk yields `none`. -/
def World.get_chunk_mut (w : World) (p : ChunkPosition) (clone_air : Bool) :
    Option Nat × World :=
  match w.position_to_index p with
  | none => (none, w)
  | some i =>
    if clone_air || i != 0 then
      if i = 0 then
        let air := w.chunks.getD 0 Chunk.defaultChunk
        let it := w.chunks.length
        (some it,
         { w with
             chunks := w.chunks ++ [air]
             position_to_index := fun q => if q = p then some it else w.position_to_index q })
      else (some i, w)
    else (none, w)

/-- `World::request_mesh_update`. -/
def World.request_mesh_update (w : World) (p : ChunkPosition) : World :=
  match w.get_chunk_mut p false with
  | (some i, w1) =>
    let chunk := w1.chunks.getD i Chunk.defaultChunk
    if chunk.in_mesh_queue then w1
    else { w1.setChunkAt i { chunk with in_mesh_queue := true } with
             mesh_queue := w1.mesh_queue ++ [p] }
  | (none, w1) => w1

/-- Relative offset of a block position inside its chunk
(`position.index() - position.chunk().block().index()`). -/
def BlockPosition.relative (p : BlockPosition) : IVec3 :=
  ⟨wrapping_sub p.index.x p.chunk.block.index.x,
   wrapping_sub p.index.y p.chunk.block.index.y,
   wrapping_sub p.index.z p.chunk.block.index.z⟩

/-- Totalized `as usize` conversion of a relative coordinate used as an
array index (the source's relative offsets always lie in [0,16)). -/
def relFin (r : Int) : Fin 16 :=
  ⟨(r % 16).toNat, by
    have h1 : 0 ≤ r % 16 := Int.emod_nonneg r (by norm_num)
    have h2 : r % 16 < 16 := Int.emod_lt_of_pos r (by norm_num)
    omega⟩

/-- Pointwise update of the dense block array. -/
def updateBlocks (b : BlockArray) (x y z : Fin 16) (v : Block) : BlockArray :=
  fun i j k => if i = x ∧ j = y ∧ k = z then v else b i j k

/-- `World::set_block`: write one voxel, maintain `non_air_block_count`,
recompute transparency on boundary writes, enqueue the six neighbouring
mesh updates, and return the previous block; returns `none` when the
containing chunk is absent, or resolves to the shared air chunk while
writing air. -/
def World.set_block (w : World) (position : BlockPosition) (block : Block) :
    Option Block × World :=
  match w.get_chunk_mut position.chunk (decide (block ≠ Block.Air)) with
  | (some i, w1) =>
    let chunk := w1.chunks.getD i Chunk.defaultChunk
    let rel := position.relative
    let rx := relFin rel.x
    let ry := relFin rel.y
    let rz := relFin rel.z
    let previous := chunk.blocks rx ry rz
    let chunk1 := { chunk with blocks := updateBlocks chunk.blocks rx ry rz block }
    if previous ≠ block then
      let count1 := if previous = Block.Air then chunk1.non_air_block_count + 1
                    else chunk1.non_air_block_count
      let count2 := if block = Block.Air then count1 - 1 else count1
      let chunk2 := { chunk1 with non_air_block_count := count2 }
      let chunk3 :=
        if rel.x = 0 ∨ rel.y = 0 ∨ rel.z = 0 ∨ rel.x = 15 ∨ rel.y = 15 ∨ rel.z = 15 then
          chunk2.compute_transparency
        else chunk2
      let w2 := w1.setChunkAt i chunk3
      let w3 := (((((w2.request_mesh_update ((position.plus ⟨1, 0, 0⟩).chunk)).request_mesh_update
            ((position.plus ⟨-1, 0, 0⟩).chunk)).request_mesh_update
            ((position.plus ⟨0, 1, 0⟩).chunk)).request_mesh_update
            ((position.plus ⟨0, -1, 0⟩).chunk)).request_mesh_update
            ((position.plus ⟨0, 0, 1⟩).chunk)).request_mesh_update
            ((position.plus ⟨0, 0, -1⟩).chunk)
      (some previous, w3)
    else
      (some previous, w1.setChunkAt i chunk1)
  | (none, w1) =>
    if decide (block ≠ Block.Air) && (w.getChunk position.chunk).isSome then
      (some Block.Air, w1)
    else (none, w1)

/-- `World::collide`: point-in-solid test; an absent chunk counts as solid.
The `f32 -> u32` truncation of the in-chunk offset is abstracted to an
in-range index triple. -/
def World.collide (w : World) (chunk : ChunkPosition) (offset : Fin 16 × Fin 16 × Fin 16) :
    Bool :=
  match w.getChunk chunk with
  | some c => !(c.blocks offset.1 offset.2.1 offset.2.2).transparent
  | none => true

/-- Loop body of `World::find_nearest_block_on_ray`.  The floating-point
sub-step positions `(offset + i * direction / 100).floor().as_ivec3()` are
abstracted as the integer sample sequence `floorStep`; the residency and
transparency handling follows the source exactly. -/
def rayMarchLoop (w : World) (startBlock : BlockPosition) (floorStep : Nat → IVec3) :
    Nat → Nat → Option BlockPosition → Option BlockPosition × Option BlockPosition
  | _, 0, _ => (none, none)
  | i, fuel + 1, previous =>
    let position := startBlock.plus (floorStep i)
    if some position = previous then
      rayMarchLoop w startBlock floorStep (i + 1) fuel previous
    else
      match w.getChunk position.chunk with
      | some chunk =>
        let rel := position.relative
        if !(chunk.blocks (relFin rel.x) (relFin rel.y) (relFin rel.z)).transparent then
          (previous, some position)
        else
          rayMarchLoop w startBlock floorStep (i + 1) fuel (some position)
      | none => rayMarchLoop w startBlock floorStep (i + 1) fuel (some position)

/-- `World::find_nearest_block_on_ray`: a march of `max_distance * 100`
fixed sub-steps starting from the player chunk origin. -/
def World.find_nearest_block_on_ray (w : World) (start_chunk : ChunkPosition)
    (floorStep : Nat → IVec3) (max_distance : Nat) :
    Option BlockPosition × Option BlockPosition :=
  rayMarchLoop w start_chunk.block floorStep 0 (max_distance * 100) none

/-! ## Occupancy counting -/

theorem countP_eq_sum_map {α : Type} (q : α → Bool) (l : List α) :
    l.countP q = (l.map fun a => if q a then 1 else 0).sum := by
  induction l with
  | nil => rfl
  | cons a l ih =>
    rw [List.countP_cons, List.map_cons, List.sum_cons, ih]
    by_cases h : q a <;> simp [h, Nat.add_comm]

theorem nonAirCount_eq_sum (b : BlockArray) :
    nonAirCount b = ∑ t : Fin 16 × Fin 16 × Fin 16,
      (if b t.1 t.2.1 t.2.2 ≠ Block.Air then 1 else 0) := by
  unfold nonAirCount allBlocksList
  rw [List.countP_flatMap, ← Fin.sum_univ_def, Fintype.sum_prod_type]
  refine Finset.sum_congr rfl fun x _ => ?_
  rw [Function.comp_apply, List.countP_flatMap, ← Fin.sum_univ_def, Fintype.sum_prod_type]
  refine Finset.sum_congr rfl fun y _ => ?_
  rw [Function.comp_apply, List.countP_map, countP_eq_sum_map, ← Fin.sum_univ_def]
  refine Finset.sum_congr rfl fun z _ => ?_
  simp

/-- Writing one cell changes the non-air count by the difference of the
indicator of the new and old values. -/
theorem nonAirCount_updateBlocks (b : BlockArray) (x0 y0 z0 : Fin 16) (v : Block) :
    nonAirCount (updateBlocks b x0 y0 z0 v) + (if b x0 y0 z0 ≠ Block.Air then 1 else 0)
      = nonAirCount b + (if v ≠ Block.Air then 1 else 0) := by
  rw [nonAirCount_eq_sum, nonAirCount_eq_sum]
  have h0 : ((x0, y0, z0) : Fin 16 × Fin 16 × Fin 16) ∈
      (Finset.univ : Finset (Fin 16 × Fin 16 × Fin 16)) := Finset.mem_univ _
  rw [← Finset.add_sum_erase _ _ h0, ← Finset.add_sum_erase _ _ h0]
  have hsame : ∀ t ∈ (Finset.univ : Finset (Fin 16 × Fin 16 × Fin 16)).erase (x0, y0, z0),
      (if updateBlocks b x0 y0 z0 v t.1 t.2.1 t.2.2 ≠ Block.Air then 1 else 0)
        = (if b t.1 t.2.1 t.2.2 ≠ Block.Air then (1 : Nat) else 0) := by
    intro t ht
    have hne := Finset.ne_of_mem_erase ht
    unfold updateBlocks
    have hcond : ¬(t.1 = x0 ∧ t.2.1 = y0 ∧ t.2.2 = z0) := by
      rintro ⟨h1, h2, h3⟩
      exact hne (by cases t with | mk a bc => cases bc; simp_all)
    rw [if_neg hcond]
  rw [Finset.sum_congr rfl hsame]
  have hat : updateBlocks b x0 y0 z0 v x0 y0 z0 = v := by
    unfold updateBlocks
    rw [if_pos ⟨rfl, rfl, rfl⟩]
  simp only [hat]
  by_cases h1 : v = Block.Air <;> by_cases h2 : b x0 y0 z0 = Block.Air <;>
    simp [h1, h2] <;> omega

/-! ## The occupancy invariant (claim C2) -/

/-- A chunk's cached occupancy agrees with its block array. -/
def chunkConsistent (c : Chunk) : Prop :=
  c.non_air_block_count = nonAirCount c.blocks

/-- The world invariant: the position map points into the chunk vector and
every stored chunk has a consistent occupancy count. -/
def WorldInv (w : World) : Prop :=
  (∀ p i, w.position_to_index p = some i → i < w.chunks.length) ∧
  (∀ c ∈ w.chunks, chunkConsistent c)

theorem defaultChunk_consistent : chunkConsistent Chunk.defaultChunk :=
  nonAirCount_allAir.symm

theorem chunkConsistent_getD {l : List Chunk} (h : ∀ c ∈ l, chunkConsistent c) (i : Nat) :
    chunkConsistent (l.getD i Chunk.defaultChunk) := by
  by_cases hi : i < l.length
  · have heq : l.getD i Chunk.defaultChunk = l[i] := by
      simp [List.getD, List.getElem?_eq_getElem hi]
    rw [heq]
    exact h _ (List.getElem_mem hi)
  · have heq : l.getD i Chunk.defaultChunk = Chunk.defaultChunk := by
      simp [List.getD, List.getElem?_eq_none (le_of_not_lt hi)]
    rw [heq]
    exact defaultChunk_consistent

theorem compute_transparency_consistent {c : Chunk} (h : chunkConsistent c) :
    chunkConsistent c.compute_transparency := by
  unfold chunkConsistent Chunk.compute_transparency at *
  split_ifs <;> exact h

theorem worldInv_setChunkAt {w : World} (h : WorldInv w) {c : Chunk}
    (hc : chunkConsistent c) (i : Nat) : WorldInv (w.setChunkAt i c) := by
  constructor
  · intro p j hp
    have := h.1 p j hp
    simpa [World.setChunkAt, List.length_set] using this
  · intro d hd
    rcases List.mem_or_eq_of_mem_set hd with h' | rfl
    · exact h.2 _ h'
    · exact hc

theorem get_chunk_mut_false_snd (w : World) (p : ChunkPosition) :
    (w.get_chunk_mut p false).2 = w := by
  unfold World.get_chunk_mut
  cases hm : w.position_to_index p with
  | none => rfl
  | some i =>
    simp only []
    split_ifs with h1 h2
    · exact absurd h2 (by simpa using h1)
    · rfl
    · rfl

theorem get_chunk_mut_inv {w : World} (h : WorldInv w) (p : ChunkPosition) (ca : Bool) :
    WorldInv (w.get_chunk_mut p ca).2 := by
  obtain ⟨hb, hc⟩ := h
  unfold World.get_chunk_mut
  cases hm : w.position_to_index p with
  | none => exact ⟨hb, hc⟩
  | some i =>
    simp only []
    split_ifs with h1 h2
    · constructor
      · intro q j hq
        dsimp only at hq
        simp only [List.length_append, List.length_cons, List.length_nil]
        by_cases hqp : q = p
        · subst hqp
          rw [if_pos rfl] at hq
          injection hq with hj
          omega
        · rw [if_neg hqp] at hq
          have := hb q j hq
          omega
      · intro c hcmem
        rcases List.mem_append.mp hcmem with h' | h'
        · exact hc _ h'
        · rcases List.mem_singleton.mp h' with rfl
          exact chunkConsistent_getD hc 0
    · exact ⟨hb, hc⟩
    · exact ⟨hb, hc⟩

theorem get_chunk_mut_idx_lt {w : World} (h : WorldInv w) (p : ChunkPosition) (ca : Bool) :
    ∀ j, (w.get_chunk_mut p ca).1 = some j → j < (w.get_chunk_mut p ca).2.chunks.length := by
  obtain ⟨hb, hc⟩ := h
  unfold World.get_chunk_mut
  cases hm : w.position_to_index p with
  | none => intro j hj; simp at hj
  | some i =>
    simp only []
    split_ifs with h1 h2
    · intro j hj
      simp only [Option.some_inj] at hj
      subst hj
      simp [List.length_append]
    · intro j hj
      simp only [Option.some_inj] at hj
      subst hj
      exact hb p i hm
    · intro j hj; simp at hj

theorem request_mesh_update_inv {w : World} (h : WorldInv w) (p : ChunkPosition) :
    WorldInv (w.request_mesh_update p) := by
  unfold World.request_mesh_update
  rcases hg : w.get_chunk_mut p false with ⟨oi, w1⟩
  have hw1 : w1 = w := by
    have := get_chunk_mut_false_snd w p
    rw [hg] at this
    exact this
  subst w1
  cases oi with
  | none => exact h
  | some i =>
    simp only []
    split_ifs with hq
    · exact h
    · have hcons : chunkConsistent
          { (w.chunks.getD i Chunk.defaultChunk) with in_mesh_queue := true } :=
        chunkConsistent_getD h.2 i
      have hinv := worldInv_setChunkAt h hcons i
      exact ⟨hinv.1, hinv.2⟩

theorem set_block_inv {w : World} (h : WorldInv w) (p : BlockPosition) (b : Block) :
    WorldInv (w.set_block p b).2 := by
  unfold World.set_block
  rcases hg : w.get_chunk_mut p.chunk (decide (b ≠ Block.Air)) with ⟨oi, w1⟩
  have hw1 : WorldInv w1 := by
    have := get_chunk_mut_inv h p.chunk (decide (b ≠ Block.Air))
    rw [hg] at this
    exact this
  cases oi with
  | none =>
    dsimp only
    split_ifs <;> exact hw1
  | some i =>
    dsimp only
    have hcons : chunkConsistent (w1.chunks.getD i Chunk.defaultChunk) :=
      chunkConsistent_getD hw1.2 i
    set chunk := w1.chunks.getD i Chunk.defaultChunk with hchunk
    set rx := relFin p.relative.x
    set ry := relFin p.relative.y
    set rz := relFin p.relative.z
    have hupdate := nonAirCount_updateBlocks chunk.blocks rx ry rz b
    split_ifs
    all_goals
      first
        | refine request_mesh_update_inv (request_mesh_update_inv (request_mesh_update_inv
            (request_mesh_update_inv (request_mesh_update_inv (request_mesh_update_inv
              (worldInv_setChunkAt hw1 ?_ i) _) _) _) _) _) _
        | refine worldInv_setChunkAt hw1 ?_ i
    all_goals try apply compute_transparency_consistent
    all_goals unfold chunkConsistent at hcons ⊢
    all_goals dsimp only
    all_goals simp_all
    all_goals omega

/-- Apply a sequence of `set_block` calls, keeping the final world. -/
def applySetBlocks (w : World) (ops : List (BlockPosition × Block)) : World :=
  ops.foldl (fun w pb => (w.set_block pb.1 pb.2).2) w

/-- Claim C2: the fresh world satisfies the occupancy invariant, and from
any world in which every stored chunk's `non_air_block_count` equals the
number of non-Air entries of its block array, any sequence of `set_block`
calls (any positions, any blocks) preserves that invariant. -/
theorem set_block_occupancy_invariant :
    (∀ v h, WorldInv (World.new v h)) ∧
    (∀ w, WorldInv w → ∀ ops : List (BlockPosition × Block),
       WorldInv (applySetBlocks w ops)) := by
  constructor
  · intro v h
    constructor
    · intro p i hp
      simp [World.new] at hp
    · intro c hcmem
      simp [World.new] at hcmem
      subst hcmem
      exact nonAirCount_allAir.symm
  · intro w hw ops
    induction ops generalizing w with
    | nil => exact hw
    | cons pb ops ih => exact ih _ (set_block_inv hw pb.1 pb.2)

/-- An empty test world with no resident chunks. -/
def emptyWorld : World :=
  { view_distance := 0
    highest_generated_chunk := 0
    lowest_generated_chunk := 0
    chunks := []
    position_to_index := fun _ => none
    position_has_mesh := fun _ => false
    generation_queue := []
    mesh_queue := [] }

theorem emptyWorld_inv : WorldInv emptyWorld :=
  ⟨fun _ i hp => by exact absurd hp (by simp [emptyWorld]),
   fun c hc => absurd hc (List.not_mem_nil c)⟩

/-- Witness for C2: the invariant holds after a concrete write sequence. -/
theorem set_block_occupancy_invariant_witness :
    WorldInv emptyWorld ∧
      WorldInv (applySetBlocks emptyWorld
        [(⟨⟨1, 2, 3⟩⟩, Block.Dirt), (⟨⟨1, 2, 3⟩⟩, Block.Air)]) :=
  ⟨emptyWorld_inv,
   set_block_occupancy_invariant.2 emptyWorld emptyWorld_inv
     [(⟨⟨1, 2, 3⟩⟩, Block.Dirt), (⟨⟨1, 2, 3⟩⟩, Block.Air)]⟩

/-! ## The set_block return contract (claim C4) -/

/-- A world with a single resident position mapped to the shared air chunk
at index 0. -/
def airWorld : World :=
  { view_distance := 0
    highest_generated_chunk := 0
    lowest_generated_chunk := 0
    chunks := [{ Chunk.defaultChunk with transparency := 255 }]
    position_to_index := fun q => if q = ⟨⟨0, 0, 0⟩⟩ then some 0 else none
    position_has_mesh := fun _ => false
    generation_queue := []
    mesh_queue := [] }

/-- Counterexample to claim C4 as stated: writing Air to a position whose
chunk is resident (mapped to the shared all-air chunk) returns `none`,
not `some` of the previous block. -/
theorem set_block_return_contract_counterexample :
    airWorld.position_to_index (BlockPosition.chunk ⟨⟨0, 0, 0⟩⟩) = some 0 ∧
    (airWorld.set_block ⟨⟨0, 0, 0⟩⟩ Block.Air).1 = none ∧
    (airWorld.set_block ⟨⟨0, 0, 0⟩⟩ Block.Air).2 = airWorld := by
  refine ⟨by decide, ?_, ?_⟩ <;> rfl

theorem getD_append_length {α : Type} (l : List α) (a d : α) :
    (l ++ [a]).getD l.length d = a := by
  simp [List.getD, List.getElem?_concat_length]

/-- Claim C4 (amended): `set_block` returns `some previous` whenever the
containing chunk is resident, EXCEPT that writing Air to a position mapped
to the shared all-air chunk (index 0) returns `none`; it returns `none`
when the chunk is not resident; in both `none` cases the world state is
unchanged. -/
theorem set_block_return_contract (w : World) (p : BlockPosition) (b : Block) :
    (w.position_to_index p.chunk = none → w.set_block p b = (none, w)) ∧
    (∀ i, w.position_to_index p.chunk = some i → b = Block.Air → i = 0 →
       w.set_block p b = (none, w)) ∧
    (∀ i, w.position_to_index p.chunk = some i → (b ≠ Block.Air ∨ i ≠ 0) →
       (w.set_block p b).1 =
         some ((w.chunks.getD i Chunk.defaultChunk).blocks
           (relFin p.relative.x) (relFin p.relative.y) (relFin p.relative.z))) := by
  refine ⟨?_, ?_, ?_⟩
  · intro hnone
    have hgc : w.get_chunk_mut p.chunk (decide (b ≠ Block.Air)) = (none, w) := by
      unfold World.get_chunk_mut
      rw [hnone]
    have hgchunk : w.getChunk p.chunk = none := by
      simp [World.getChunk, hnone]
    unfold World.set_block
    rw [hgc]
    dsimp only
    rw [hgchunk]
    simp
  · intro i hmap hb hi
    subst hb
    subst hi
    have hgc : w.get_chunk_mut p.chunk (decide (Block.Air ≠ Block.Air)) = (none, w) := by
      unfold World.get_chunk_mut
      rw [hmap]
      simp
    unfold World.set_block
    rw [hgc]
    dsimp only
    simp
  · intro i hmap hcase
    unfold World.set_block World.get_chunk_mut
    rw [hmap]
    dsimp only
    by_cases hb : b = Block.Air
    · have hi : i ≠ 0 := by
        rcases hcase with h | h
        · exact absurd hb h
        · exact h
      rw [if_pos (by simp [hi] : (decide (b ≠ Block.Air) || i != 0) = true), if_neg hi]
      dsimp only
      split_ifs <;> rfl
    · rw [if_pos (by simp [hb] : (decide (b ≠ Block.Air) || i != 0) = true)]
      by_cases hi : i = 0
      · subst hi
        rw [if_pos rfl]
        dsimp only
        rw [getD_append_length]
        split_ifs <;> rfl
      · rw [if_neg hi]
        dsimp only
        split_ifs <;> rfl

/-- Witness for C4 on a world with a resident air-chunk position, writing
a non-air block (the clone-on-write path). -/
theorem set_block_return_contract_witness :
    airWorld.position_to_index (BlockPosition.chunk ⟨⟨0, 0, 0⟩⟩) = some 0 ∧
    (airWorld.set_block ⟨⟨0, 0, 0⟩⟩ Block.Dirt).1 =
      some ((airWorld.chunks.getD 0 Chunk.defaultChunk).blocks
        (relFin (BlockPosition.relative ⟨⟨0, 0, 0⟩⟩).x)
        (relFin (BlockPosition.relative ⟨⟨0, 0, 0⟩⟩).y)
        (relFin (BlockPosition.relative ⟨⟨0, 0, 0⟩⟩).z)) :=
  ⟨by decide,
   (set_block_return_contract airWorld ⟨⟨0, 0, 0⟩⟩ Block.Dirt).2.2 0 (by decide)
     (Or.inl (by decide))⟩

/-! ## Ray marching through unloaded space (claim C10) -/

/-- Any first-opaque hit reported by the ray march lies in a resident
chunk and is an opaque block there. -/
theorem rayMarchLoop_hit_resident (w : World) (sb : BlockPosition) (fs : Nat → IVec3) :
    ∀ fuel i prev q, (rayMarchLoop w sb fs i fuel prev).2 = some q →
      ∃ c, w.getChunk q.chunk = some c ∧
        (c.blocks (relFin q.relative.x) (relFin q.relative.y)
          (relFin q.relative.z)).transparent = false := by
  intro fuel
  induction fuel with
  | zero =>
    intro i prev q hq
    simp [rayMarchLoop] at hq
  | succ fuel ih =>
    intro i prev q hq
    rw [rayMarchLoop] at hq
    dsimp only at hq
    by_cases hp : some (sb.plus (fs i)) = prev
    · rw [if_pos hp] at hq
      exact ih (i + 1) prev q hq
    · rw [if_neg hp] at hq
      cases hchunk : w.getChunk (sb.plus (fs i)).chunk with
      | none =>
        rw [hchunk] at hq
        dsimp only at hq
        exact ih (i + 1) (some (sb.plus (fs i))) q hq
      | some c =>
        rw [hchunk] at hq
        dsimp only at hq
        by_cases htr : (c.blocks (relFin (sb.plus (fs i)).relative.x)
            (relFin (sb.plus (fs i)).relative.y)
            (relFin (sb.plus (fs i)).relative.z)).transparent
        · rw [if_neg (by simp [htr])] at hq
          exact ih (i + 1) (some (sb.plus (fs i))) q hq
        · rw [if_pos (by simp [Bool.not_eq_true] at htr ⊢; exact htr)] at hq
          dsimp only at hq
          injection hq with hq'
          subst hq'
          exact ⟨c, hchunk, by simpa using htr⟩

/-- Claim C10: a sampled position whose chunk is not resident is treated
as transparent: it is never the reported first-opaque hit, the march steps
over it recording it as the last-transparent candidate, while `collide`
reports the same non-resident chunk as solid (fail-closed). -/
theorem ray_passes_through_unloaded (w : World) (p : BlockPosition)
    (hnr : w.getChunk p.chunk = none) :
    (∀ sb fs i fuel prev, (rayMarchLoop w sb fs i fuel prev).2 ≠ some p) ∧
    (∀ sb fs i fuel prev, sb.plus (fs i) = p → some p ≠ prev →
       rayMarchLoop w sb fs i (fuel + 1) prev =
         rayMarchLoop w sb fs (i + 1) fuel (some p)) ∧
    (∀ off, w.collide p.chunk off = true) := by
  refine ⟨?_, ?_, ?_⟩
  · intro sb fs i fuel prev heq
    obtain ⟨c, hc, -⟩ := rayMarchLoop_hit_resident w sb fs fuel i prev p heq
    rw [hnr] at hc
    cases hc
  · intro sb fs i fuel prev heq hprev
    rw [rayMarchLoop]
    dsimp only
    rw [heq, if_neg hprev, hnr]
  · intro off
    unfold World.collide
    rw [hnr]

/-- Witness for C10 on the empty world. -/
theorem ray_passes_through_unloaded_witness :
    emptyWorld.getChunk (BlockPosition.chunk ⟨⟨0, 0, 0⟩⟩) = none ∧
    (rayMarchLoop emptyWorld (ChunkPosition.block ⟨⟨0, 0, 0⟩⟩)
        (fun _ => ⟨0, 0, 0⟩) 0 600 none).2 ≠ some ⟨⟨0, 0, 0⟩⟩ ∧
    emptyWorld.collide (BlockPosition.chunk ⟨⟨0, 0, 0⟩⟩)
      ((0 : Fin 16), (0 : Fin 16), (0 : Fin 16)) = true :=
  ⟨rfl,
   (ray_passes_through_unloaded emptyWorld ⟨⟨0, 0, 0⟩⟩ rfl).1
     (ChunkPosition.block ⟨⟨0, 0, 0⟩⟩) (fun _ => ⟨0, 0, 0⟩) 0 600 none,
   (ray_passes_through_unloaded emptyWorld ⟨⟨0, 0, 0⟩⟩ rfl).2.2
     ((0 : Fin 16), (0 : Fin 16), (0 : Fin 16))⟩

/-! ## Terrain generation (src/generator/terrain.rs)

The block enum used by the generator lives in `src/simulation/chunk.rs`,
which is not part of the source snapshot (only its users are); its variants
are modelled from the spec.  The floating-point Perlin-noise pipeline
(`ImprovedNoise`, `height`, the density formula) and the external
`StdRng::from_seed` shuffle are abstracted as parameters: `noiseOfRng`
maps a 32-byte RNG seed to a permutation table and `density` maps the two
permutation tables and the absolute block coordinates to the per-voxel
density value. -/

/-- Modelled from the spec: `src/simulation/chunk.rs` is absent from the
snapshot; the data model lists the block variants Air, Dirt, Stone, Sand,
Water, Button. -/
inductive SBlock where
  | Air
  | Dirt
  | Stone
  | Sand
  | Water
  | Button
deriving DecidableEq, Repr

structure SChunk where
  blocks : Fin 16 → Fin 16 → Fin 16 → SBlock
  transparency : Nat
  in_mesh_queue : Bool
  non_air_block_count : Nat

def SChunk.defaultChunk : SChunk :=
  { blocks := fun _ _ _ => SBlock.Air
    transparency := 0
    in_mesh_queue := false
    non_air_block_count := 0 }

/-- Boundary-layer scan of `compute_transparency` for generator chunks,
parameterized by the transparency predicate of the missing block enum. -/
def sCheckLayer (str : SBlock → Bool) (blocks : Fin 16 → Fin 16 → Fin 16 → SBlock)
    (ox oy oz dx dy dz : Nat) : Bool :=
  (stepBy dx).any fun x => (stepBy dy).any fun y => (stepBy dz).any fun z =>
    str (blocks ⟨(ox + x) % 16, Nat.mod_lt _ (by norm_num)⟩
      ⟨(oy + y) % 16, Nat.mod_lt _ (by norm_num)⟩
      ⟨(oz + z) % 16, Nat.mod_lt _ (by norm_num)⟩)

/-- `Chunk::compute_transparency` on generator chunks, parameterized by
the transparency predicate of the missing block enum. -/
def SChunk.compute_transparency (str : SBlock → Bool) (c : SChunk) : SChunk :=
  if c.non_air_block_count = maxBlockCount then
    { c with transparency := 1 <<< Transparency.Computed.toBit }
  else if c.non_air_block_count = 0 then
    { c with transparency := 255 }
  else
    { c with transparency :=
        (1 <<< Transparency.Computed.toBit) |||
        (if sCheckLayer str c.blocks 15 0 0 16 1 1 then 1 <<< Transparency.PosX.toBit else 0) |||
        (if sCheckLayer str c.blocks 0 15 0 1 16 1 then 1 <<< Transparency.PosY.toBit else 0) |||
        (if sCheckLayer str c.blocks 0 0 15 1 1 16 then 1 <<< Transparency.PosZ.toBit else 0) |||
        (if sCheckLayer str c.blocks 0 0 0 16 1 1 then 1 <<< Transparency.NegX.toBit else 0) |||
        (if sCheckLayer str c.blocks 0 0 0 1 16 1 then 1 <<< Transparency.NegY.toBit else 0) |||
        (if sCheckLayer str c.blocks 0 0 0 1 1 16 then 1 <<< Transparency.NegZ.toBit else 0) }

/-- Permutation table of `ImprovedNoise`. -/
def Perm := Fin 256 → Fin 256

/-- Little-endian bytes of a `u64` value. -/
def u64LEBytes (n : Nat) : List Nat :=
  (List.range 8).map fun i => (n >>> (8 * i)) % 256

/-- Little-endian two's-complement bytes of an `i32` value. -/
def i32LEBytes (v : Int) : List Nat :=
  (List.range 4).map fun i => ((v % 2 ^ 32).toNat >>> (8 * i)) % 256

/-- `Usage::FillChunk as u8`. -/
def usageFillChunk : Nat := 0

/-- `Usage::FillWorld as u8`. -/
def usageFillWorld : Nat := 1

/-- The `random` helper: a 32-byte `StdRng` seed built from the world seed,
the chunk's block origin and the usage tag, then XORed with 0xA5. -/
def randomSeedBytes (position : ChunkPosition) (world_seed : Nat) (usage : Nat) :
    List Nat :=
  let p := position.block.index
  (u64LEBytes world_seed ++ i32LEBytes p.x ++ i32LEBytes p.y ++ i32LEBytes p.z ++
    [usage % 256] ++ List.replicate 11 0).map fun b => b ^^^ 0xA5

structure TerrainGenerator where
  world_seed : Nat
  global_noise : Perm

/-- `TerrainGenerator::new`: derives the global permutation table from the
world seed at chunk (0,0,0) with the FillWorld tag. -/
def TerrainGenerator.new (noiseOfRng : List Nat → Perm) (world_seed : Nat) :
    TerrainGenerator :=
  { world_seed := world_seed
    global_noise := noiseOfRng (randomSeedBytes ⟨⟨0, 0, 0⟩⟩ world_seed usageFillWorld) }

/-- The per-voxel block assignment of `fill_chunk` from the computed
density and the absolute block height. -/
def classifyVoxel (d : Rat) (block_y : Int) : SBlock :=
  if d > 0 ∨ block_y < 0 then
    if d > 1 / 10 then SBlock.Stone
    else if d > 0 then
      (if block_y < 1 then SBlock.Sand else SBlock.Dirt)
    else SBlock.Water
  else SBlock.Air

/-- All voxel coordinates in `[x][y][z]` iteration order. -/
def allTriples : List (Fin 16 × Fin 16 × Fin 16) :=
  (List.finRange 16).flatMap fun x =>
    (List.finRange 16).flatMap fun y =>
      (List.finRange 16).map fun z => (x, y, z)

theorem mem_allTriples (x y z : Fin 16) : (x, y, z) ∈ allTriples := by
  unfold allTriples
  refine List.mem_flatMap.mpr ⟨x, List.mem_finRange x, ?_⟩
  refine List.mem_flatMap.mpr ⟨y, List.mem_finRange y, ?_⟩
  exact List.mem_map.mpr ⟨z, List.mem_finRange z, rfl⟩

/-- `TerrainGenerator::fill_chunk`: derive the per-chunk permutation table
from `(seed, chunk block origin, FillChunk)`, classify every voxel from its
density and absolute height, and return `none` when no voxel was solid,
otherwise the chunk with its occupancy count and computed transparency.
Returns the chunk-info occupancy count alongside. -/
def fill_chunk (noiseOfRng : List Nat → Perm)
    (density : Perm → Perm → Int → Int → Int → Rat) (str : SBlock → Bool)
    (g : TerrainGenerator) (position : ChunkPosition) : Option SChunk × Nat :=
  let localPerm := noiseOfRng (randomSeedBytes position g.world_seed usageFillChunk)
  let pos := position.block.index
  let densityAt : Fin 16 → Fin 16 → Fin 16 → Rat := fun x y z =>
    density g.global_noise localPerm
      (wrapping_add pos.x x.val) (wrapping_add pos.y y.val) (wrapping_add pos.z z.val)
  let blocks : Fin 16 → Fin 16 → Fin 16 → SBlock := fun x y z =>
    classifyVoxel (densityAt x y z) (wrapping_add pos.y y.val)
  let non_air_block_count :=
    allTriples.countP fun t =>
      decide (densityAt t.1 t.2.1 t.2.2 > 0 ∨ wrapping_add pos.y t.2.1.val < 0)
  if non_air_block_count = 0 then
    (none, non_air_block_count)
  else
    (some (SChunk.compute_transparency str
      { blocks := blocks
        transparency := 0
        in_mesh_queue := false
        non_air_block_count := non_air_block_count }), non_air_block_count)

theorem sCompute_blocks (str : SBlock → Bool) (c : SChunk) :
    (SChunk.compute_transparency str c).blocks = c.blocks := by
  unfold SChunk.compute_transparency
  split_ifs <;> rfl

theorem classifyVoxel_eq_air_iff (d : Rat) (y : Int) :
    classifyVoxel d y = SBlock.Air ↔ ¬(d > 0 ∨ y < 0) := by
  unfold classifyVoxel
  split_ifs with h h1 h2 h3 <;> simp_all

/-- The spec's wording of the density classification: Stone if density >
0.1; Sand if 0 < density <= 0.1 and y < 1; Dirt if 0 < density <= 0.1 and
y >= 1; Water if density <= 0 and y < 0; Air otherwise. -/
def specClassify (d : Rat) (y : Int) : SBlock :=
  if d > 1 / 10 then SBlock.Stone
  else if 0 < d ∧ d ≤ 1 / 10 ∧ y < 1 then SBlock.Sand
  else if 0 < d ∧ d ≤ 1 / 10 ∧ 1 ≤ y then SBlock.Dirt
  else if d ≤ 0 ∧ y < 0 then SBlock.Water
  else SBlock.Air

theorem classifyVoxel_eq_specClassify (d : Rat) (y : Int) :
    classifyVoxel d y = specClassify d y := by
  unfold classifyVoxel specClassify
  split_ifs <;> first
    | rfl
    | (exfalso; simp_all; try linarith)
    | (exfalso; omega)

/-- `fill_chunk` returns no chunk exactly when every voxel classifies as
Air. -/
theorem fill_chunk_none_iff (noiseOfRng : List Nat → Perm)
    (density : Perm → Perm → Int → Int → Int → Rat) (str : SBlock → Bool)
    (g : TerrainGenerator) (position : ChunkPosition) :
    (fill_chunk noiseOfRng density str g position).1 = none ↔
      ∀ x y z : Fin 16,
        classifyVoxel
          (density g.global_noise
            (noiseOfRng (randomSeedBytes position g.world_seed usageFillChunk))
            (wrapping_add position.block.index.x x.val)
            (wrapping_add position.block.index.y y.val)
            (wrapping_add position.block.index.z z.val))
          (wrapping_add position.block.index.y y.val) = SBlock.Air := by
  unfold fill_chunk
  dsimp only
  split_ifs with h0
  · refine iff_of_true rfl ?_
    intro x y z
    rw [classifyVoxel_eq_air_iff]
    have := List.countP_eq_zero.mp h0 (x, y, z) (mem_allTriples x y z)
    simpa using this
  · refine iff_of_false (by simp) ?_
    intro hall
    apply h0
    refine List.countP_eq_zero.mpr ?_
    intro t _
    have := (classifyVoxel_eq_air_iff _ _).mp (hall t.1 t.2.1 t.2.2)
    simpa using this

/-- Claim C6: for every chunk position, `fill_chunk` assigns each voxel
the block determined by its density and absolute height exactly as the
spec words it (Stone / Sand / Dirt / Water / Air), and returns `none`
exactly when every voxel of the chunk classifies as Air. -/
theorem fill_chunk_density_classification
    (noiseOfRng : List Nat → Perm) (density : Perm → Perm → Int → Int → Int → Rat)
    (str : SBlock → Bool) (g : TerrainGenerator) (position : ChunkPosition) :
    (∀ d y, classifyVoxel d y = specClassify d y) ∧
    (∀ ch, (fill_chunk noiseOfRng density str g position).1 = some ch →
       ∀ x y z : Fin 16,
         ch.blocks x y z =
           classifyVoxel
             (density g.global_noise
               (noiseOfRng (randomSeedBytes position g.world_seed usageFillChunk))
               (wrapping_add position.block.index.x x.val)
               (wrapping_add position.block.index.y y.val)
               (wrapping_add position.block.index.z z.val))
             (wrapping_add position.block.index.y y.val)) ∧
    ((fill_chunk noiseOfRng density str g position).1 = none ↔
       ∀ x y z : Fin 16,
         classifyVoxel
           (density g.global_noise
             (noiseOfRng (randomSeedBytes position g.world_seed usageFillChunk))
             (wrapping_add position.block.index.x x.val)
             (wrapping_add position.block.index.y y.val)
             (wrapping_add position.block.index.z z.val))
           (wrapping_add position.block.index.y y.val) = SBlock.Air) := by
  refine ⟨classifyVoxel_eq_specClassify, ?_, ?_⟩
  · intro ch hch x y z
    unfold fill_chunk at hch
    dsimp only at hch
    split_ifs at hch with h0
    all_goals simp only [Option.some.injEq, reduceCtorEq] at hch
    all_goals subst hch
    all_goals rw [sCompute_blocks]
  · exact fill_chunk_none_iff noiseOfRng density str g position

/-- A trivial permutation-table source for witnesses. -/
def constPermOfRng : List Nat → Perm := fun _ => id

/-- A constant density field for witnesses. -/
def constDensity : Perm → Perm → Int → Int → Int → Rat := fun _ _ _ _ _ => 1

/-- Witness for C6 with a constant density function. -/
theorem fill_chunk_density_classification_witness :
    ∀ ch, (fill_chunk constPermOfRng constDensity (fun _ => true)
        (TerrainGenerator.new constPermOfRng 42) ⟨⟨0, 0, 0⟩⟩).1 = some ch →
      ∀ x y z : Fin 16,
        ch.blocks x y z =
          classifyVoxel
            (constDensity (TerrainGenerator.new constPermOfRng 42).global_noise
              (constPermOfRng (randomSeedBytes ⟨⟨0, 0, 0⟩⟩
                (TerrainGenerator.new constPermOfRng 42).world_seed usageFillChunk))
              (wrapping_add (ChunkPosition.block ⟨⟨0, 0, 0⟩⟩).index.x x.val)
              (wrapping_add (ChunkPosition.block ⟨⟨0, 0, 0⟩⟩).index.y y.val)
              (wrapping_add (ChunkPosition.block ⟨⟨0, 0, 0⟩⟩).index.z z.val))
            (wrapping_add (ChunkPosition.block ⟨⟨0, 0, 0⟩⟩).index.y y.val) :=
  (fill_chunk_density_classification constPermOfRng constDensity
    (fun _ => true) (TerrainGenerator.new constPermOfRng 42) ⟨⟨0, 0, 0⟩⟩).2.1

/-- Claim C7: `fill_chunk` output is a pure function of the world seed and
the chunk position.  Two independently constructed generators with the same
seed produce identical results (block arrays, transparency masks and
occupancy counts), for a single chunk and for any sequence of generation
requests in any order; the generator state is never mutated by a call, so
interleaving cannot influence a reply. -/
theorem fill_chunk_deterministic
    (noiseOfRng : List Nat → Perm) (density : Perm → Perm → Int → Int → Int → Rat)
    (str : SBlock → Bool) (seed : Nat) (pos : ChunkPosition) :
    (∀ g1 g2 : TerrainGenerator,
       g1 = TerrainGenerator.new noiseOfRng seed →
       g2 = TerrainGenerator.new noiseOfRng seed →
       fill_chunk noiseOfRng density str g1 pos =
         fill_chunk noiseOfRng density str g2 pos) ∧
    (∀ g1 g2 : TerrainGenerator, ∀ ps : List ChunkPosition,
       g1 = TerrainGenerator.new noiseOfRng seed →
       g2 = TerrainGenerator.new noiseOfRng seed →
       ps.map (fill_chunk noiseOfRng density str g1) =
         ps.map (fill_chunk noiseOfRng density str g2)) := by
  constructor
  · intro g1 g2 h1 h2
    subst h1
    subst h2
    rfl
  · intro g1 g2 ps h1 h2
    subst h1
    subst h2
    rfl

/-- Witness for C7 with two separately written-down generator instances. -/
theorem fill_chunk_deterministic_witness :
    fill_chunk constPermOfRng constDensity (fun _ => true)
        (TerrainGenerator.new constPermOfRng 42) ⟨⟨1, 2, 3⟩⟩ =
      fill_chunk constPermOfRng constDensity (fun _ => true)
        (TerrainGenerator.new constPermOfRng 42) ⟨⟨1, 2, 3⟩⟩ :=
  (fill_chunk_deterministic constPermOfRng constDensity (fun _ => true) 42 ⟨⟨1, 2, 3⟩⟩).1
    (TerrainGenerator.new constPermOfRng 42) (TerrainGenerator.new constPermOfRng 42) rfl rfl

/-! ## The GenerateColumnReply wire format (claim C8)

Writer: `GeneratorState::update` in src/generator.rs; reader: the
`GenerateColumnReply` arm of `SimulationState::update` in src/simulation.rs.
Byte buffers are lists of byte values; multi-byte fields use the native
byte order of the compilation targets (little-endian). -/

/-- The `repr(u8)` discriminant of a block, in the spec's variant order
(the enum itself lives in the absent src/simulation/chunk.rs). -/
def SBlock.toU8 : SBlock → Nat
  | .Air => 0
  | .Dirt => 1
  | .Stone => 2
  | .Sand => 3
  | .Water => 4
  | .Button => 5

/-- `Block::from_integer` (bytemuck `Contiguous`). -/
def SBlock.fromU8 : Nat → Option SBlock
  | 0 => some .Air
  | 1 => some .Dirt
  | 2 => some .Stone
  | 3 => some .Sand
  | 4 => some .Water
  | 5 => some .Button
  | _ => none

theorem fromU8_toU8 (b : SBlock) : SBlock.fromU8 b.toU8 = some b := by
  cases b <;> rfl

/-- Little-endian bytes of a `u16` value. -/
def u16LEBytes (n : Nat) : List Nat := [n % 256, n / 256 % 256]

/-- Decode a little-endian `i32` from four bytes. -/
def i32FromLEBytes (l : List Nat) : Int :=
  let u := l.getD 0 0 + 256 * l.getD 1 0 + 65536 * l.getD 2 0 + 16777216 * l.getD 3 0
  if u < 2 ^ 31 then (u : Int) else (u : Int) - 2 ^ 32

/-- Memory order of the dense `[[[u8; 16]; 16]; 16]` block array. -/
def blocksBytes (b : Fin 16 → Fin 16 → Fin 16 → SBlock) : List Nat :=
  allTriples.map fun t => (b t.1 t.2.1 t.2.2).toU8

/-- Bytes of a full `ChunkColumnElement` record: flag byte 1, transparency
byte, 2-byte occupancy count, 4096 block-id bytes. -/
def chunkColumnElementBytes (c : SChunk) : List Nat :=
  [1, c.transparency % 256] ++ u16LEBytes c.non_air_block_count ++ blocksBytes c.blocks

/-- `MessageTag::GenerateColumnReply as u8` (src/worker.rs tag order). -/
def tagGenerateColumnReply : Nat := 3

structure GeneratorState where
  generator : TerrainGenerator
  highest_generated_chunk : Int
  lowest_generated_chunk : Int

/-- The Y levels `lowest..=highest` in iteration order. -/
def yLevels (lowest highest : Int) : List Int :=
  (List.range ((highest - lowest).toNat + 1)).map fun k => lowest + k

/-- One per-Y record of the reply: a full chunk payload when `fill_chunk`
produced a chunk, otherwise a none flag plus an alignment byte. -/
def columnRecord (noiseOfRng : List Nat → Perm)
    (density : Perm → Perm → Int → Int → Int → Rat) (str : SBlock → Bool)
    (gs : GeneratorState) (x z : Int) (y : Int) : List Nat :=
  match (fill_chunk noiseOfRng density str gs.generator ⟨⟨x, y, z⟩⟩).1 with
  | some chunk => chunkColumnElementBytes chunk
  | none => [0, 0]

/-- The `GenerateColumnReply` message built by `GeneratorState::update`:
X, Z, one record per Y level from lowest to highest, then the tag byte. -/
def generateColumnReply (noiseOfRng : List Nat → Perm)
    (density : Perm → Perm → Int → Int → Int → Rat) (str : SBlock → Bool)
    (gs : GeneratorState) (x z : Int) : List Nat :=
  i32LEBytes x ++ i32LEBytes z ++
    ((yLevels gs.lowest_generated_chunk gs.highest_generated_chunk).flatMap
      (columnRecord noiseOfRng density str gs x z)) ++
    [tagGenerateColumnReply]

/-- Modelled from the spec: the reply layout as the spec words it, with
the per-Y records "ordered from the highest Y level to the lowest";
identical to the source layout except for the record order. -/
def specColumnReply (noiseOfRng : List Nat → Perm)
    (density : Perm → Perm → Int → Int → Int → Rat) (str : SBlock → Bool)
    (gs : GeneratorState) (x z : Int) : List Nat :=
  i32LEBytes x ++ i32LEBytes z ++
    (((yLevels gs.lowest_generated_chunk gs.highest_generated_chunk).reverse).flatMap
      (columnRecord noiseOfRng density str gs x z)) ++
    [tagGenerateColumnReply]

/-- Decode the 4096 block bytes of a record (`bytemuck` reinterpretation
plus `Block::from_integer(..).unwrap()`). -/
def decodeBlocks (l : List Nat) : Option (Fin 16 → Fin 16 → Fin 16 → SBlock) :=
  if l.length = 4096 ∧ l.all (fun b => (SBlock.fromU8 b).isSome) then
    some (fun x y z =>
      (SBlock.fromU8 (l.getD (x.val * 256 + y.val * 16 + z.val) 0)).getD SBlock.Air)
  else none

/-- The reader's per-Y loop: consume one record per Y level in the same
lowest-to-highest order, reconstructing the chunk for flag byte 1 and
recording an air chunk otherwise (skipping the 2 record bytes). -/
def readRecords : List Int → List Nat → Option (List (Int × Option SChunk))
  | [], _ => some []
  | y :: ys, bytes =>
    match bytes with
    | [] => none
    | flag :: _ =>
      if flag = 1 then
        if 4100 ≤ bytes.length then
          let record := bytes.take 4100
          match decodeBlocks (record.drop 4) with
          | none => none
          | some blocks =>
            let chunk : SChunk :=
              { blocks := blocks
                transparency := record.getD 1 0
                in_mesh_queue := false
                non_air_block_count := record.getD 2 0 + 256 * record.getD 3 0 }
            (readRecords ys (bytes.drop 4100)).map fun l => (y, some chunk) :: l
        else none
      else
        (readRecords ys (bytes.drop 2)).map fun l => (y, (none : Option SChunk)) :: l

/-- The reader of a `GenerateColumnReply` message: X, Z, then the per-Y
records for `lowest..=highest`. -/
def readColumnReply (lowest highest : Int) (bytes : List Nat) :
    Option (Int × Int × List (Int × Option SChunk)) :=
  if 8 ≤ bytes.length then
    (readRecords (yLevels lowest highest) (bytes.drop 8)).map fun l =>
      (i32FromLEBytes (bytes.take 4), i32FromLEBytes ((bytes.drop 4).take 4), l)
  else none

theorem length_allTriples : allTriples.length = 4096 := by
  unfold allTriples
  simp [List.length_flatMap, Function.comp_def, List.map_const']

theorem getElem?_flatMap_const {α β : Type} (L : Nat) :
    ∀ (l : List α) (f : α → List β), (∀ a ∈ l, (f a).length = L) →
      ∀ k r : Nat, r < L →
        (l.flatMap f)[k * L + r]? = (l[k]?).bind fun a => (f a)[r]? := by
  intro l
  induction l with
  | nil =>
    intro f h k r hr
    simp
  | cons a l ih =>
    intro f h k r hr
    have hlen : (f a).length = L := h a (List.mem_cons_self a l)
    rw [List.flatMap_cons]
    cases k with
    | zero =>
      rw [Nat.zero_mul, Nat.zero_add, List.getElem?_append]
      rw [if_pos (by omega)]
      simp
    | succ k =>
      have h1 : L ≤ (k + 1) * L := Nat.le_mul_of_pos_left L (Nat.succ_pos k)
      rw [List.getElem?_append_right (by rw [hlen]; exact le_trans h1 (Nat.le_add_right _ r))]
      have harith : (k + 1) * L + r - (f a).length = k * L + r := by
        rw [hlen, Nat.succ_mul]
        omega
      rw [harith, ih f (fun b hb => h b (List.mem_cons_of_mem a hb)) k r hr]
      simp

theorem getElem?_finRange_fin (x : Fin 16) : (List.finRange 16)[x.val]? = some x := by
  rw [List.getElem?_eq_getElem (by simpa using x.isLt)]
  congr 1
  exact Fin.ext (by simp [List.getElem_finRange])

theorem getElem?_allTriples (x y z : Fin 16) :
    allTriples[(x.val * 256 + (y.val * 16 + z.val) : Nat)]? = some (x, y, z) := by
  unfold allTriples
  rw [getElem?_flatMap_const 256 _ _
    (fun a _ => by simp [List.length_flatMap, Function.comp_def, List.map_const'])
    x.val (y.val * 16 + z.val) (by omega)]
  rw [getElem?_finRange_fin x]
  simp only [Option.some_bind]
  rw [getElem?_flatMap_const 16 _ _ (fun a _ => by simp) y.val z.val (by omega)]
  rw [getElem?_finRange_fin y]
  simp only [Option.some_bind]
  rw [List.getElem?_map, getElem?_finRange_fin z]
  rfl

theorem blocksBytes_length (b : Fin 16 → Fin 16 → Fin 16 → SBlock) :
    (blocksBytes b).length = 4096 := by
  unfold blocksBytes
  rw [List.length_map, length_allTriples]

theorem decodeBlocks_blocksBytes (b : Fin 16 → Fin 16 → Fin 16 → SBlock) :
    decodeBlocks (blocksBytes b) = some b := by
  have hall : (blocksBytes b).all (fun byte => (SBlock.fromU8 byte).isSome) = true := by
    rw [List.all_eq_true]
    intro byte hbyte
    unfold blocksBytes at hbyte
    obtain ⟨t, -, rfl⟩ := List.mem_map.mp hbyte
    rw [fromU8_toU8]
    rfl
  unfold decodeBlocks
  rw [if_pos ⟨blocksBytes_length b, hall⟩]
  congr 1
  funext x y z
  have hassoc : x.val * 256 + y.val * 16 + z.val = x.val * 256 + (y.val * 16 + z.val) := by
    omega
  have hidx : (blocksBytes b).getD (x.val * 256 + y.val * 16 + z.val) 0
      = (b x y z).toU8 := by
    unfold blocksBytes
    rw [List.getD_eq_getElem?_getD, hassoc, List.getElem?_map, getElem?_allTriples]
    rfl
  rw [hidx, fromU8_toU8]
  rfl

theorem i32LEBytes_length (v : Int) : (i32LEBytes v).length = 4 := by
  simp [i32LEBytes]

theorem i32FromLEBytes_i32LEBytes (v : Int) (h : InI32 v) :
    i32FromLEBytes (i32LEBytes v) = v := by
  obtain ⟨h1, h2⟩ := h
  have hmod : 0 ≤ v % 2 ^ 32 := Int.emod_nonneg v (by norm_num)
  have hmodlt : v % 2 ^ 32 < 2 ^ 32 := Int.emod_lt_of_pos v (by norm_num)
  unfold i32FromLEBytes i32LEBytes
  set u := (v % 2 ^ 32).toNat with hudef
  have hu1 : (u : Int) = v % 2 ^ 32 := Int.toNat_of_nonneg hmod
  have hu2 : u < 2 ^ 32 := by omega
  have hrange : List.range 4 = [0, 1, 2, 3] := rfl
  rw [hrange]
  simp only [List.map_cons, List.map_nil, List.getD_cons_zero, List.getD_cons_succ,
    Nat.shiftRight_eq_div_pow]
  norm_num
  have hv : v % 2 ^ 32 = v ∨ v % 2 ^ 32 = v + 2 ^ 32 := by omega
  split_ifs with hlt <;> push_cast <;> omega

theorem sCompute_transparency_le (str : SBlock → Bool) (c : SChunk) :
    (SChunk.compute_transparency str c).transparency ≤ 255 := by
  unfold SChunk.compute_transparency
  split_ifs <;> dsimp only <;> decide

theorem sCompute_count_queue (str : SBlock → Bool) (c : SChunk) :
    (SChunk.compute_transparency str c).non_air_block_count = c.non_air_block_count ∧
      (SChunk.compute_transparency str c).in_mesh_queue = c.in_mesh_queue := by
  unfold SChunk.compute_transparency
  split_ifs <;> exact ⟨rfl, rfl⟩

theorem fill_chunk_some_bounds (noiseOfRng : List Nat → Perm)
    (density : Perm → Perm → Int → Int → Int → Rat) (str : SBlock → Bool)
    (g : TerrainGenerator) (position : ChunkPosition) :
    ∀ ch, (fill_chunk noiseOfRng density str g position).1 = some ch →
      ch.transparency ≤ 255 ∧ ch.non_air_block_count ≤ 4096 ∧
        ch.in_mesh_queue = false := by
  intro ch hch
  unfold fill_chunk at hch
  dsimp only at hch
  split_ifs at hch with h0
  all_goals simp only [Option.some.injEq, reduceCtorEq] at hch
  subst hch
  refine ⟨sCompute_transparency_le _ _, ?_, ?_⟩
  · rw [(sCompute_count_queue _ _).1]
    dsimp only
    rw [← length_allTriples]
    exact List.countP_le_length _
  · rw [(sCompute_count_queue _ _).2]

theorem chunkColumnElementBytes_length (c : SChunk) :
    (chunkColumnElementBytes c).length = 4100 := by
  simp [chunkColumnElementBytes, u16LEBytes, blocksBytes_length]

/-- The reader consumes the writer's records one Y level at a time, in the
same order, reconstructing exactly the generated chunks. -/
theorem readRecords_roundTrip (noiseOfRng : List Nat → Perm)
    (density : Perm → Perm → Int → Int → Int → Rat) (str : SBlock → Bool)
    (gs : GeneratorState) (x z : Int) :
    ∀ (ys : List Int) (rest : List Nat),
      readRecords ys ((ys.flatMap (columnRecord noiseOfRng density str gs x z)) ++ rest) =
        some (ys.map fun y =>
          (y, (fill_chunk noiseOfRng density str gs.generator ⟨⟨x, y, z⟩⟩).1)) := by
  intro ys
  induction ys with
  | nil => intro rest; rfl
  | cons y ys ih =>
    intro rest
    rw [List.flatMap_cons, List.append_assoc]
    cases hfill : (fill_chunk noiseOfRng density str gs.generator ⟨⟨x, y, z⟩⟩).1 with
    | none =>
      have hrec : columnRecord noiseOfRng density str gs x z y = [0, 0] := by
        unfold columnRecord
        rw [hfill]
      rw [hrec]
      show readRecords (y :: ys)
        (0 :: 0 :: (ys.flatMap (columnRecord noiseOfRng density str gs x z) ++ rest)) = _
      rw [readRecords]
      dsimp only
      rw [if_neg (by norm_num)]
      rw [List.drop_succ_cons, List.drop_succ_cons, List.drop_zero]
      rw [ih rest]
      simp [hfill]
    | some ch =>
      obtain ⟨htr, hcnt, hqueue⟩ :=
        fill_chunk_some_bounds noiseOfRng density str gs.generator ⟨⟨x, y, z⟩⟩ ch hfill
      have hrec : columnRecord noiseOfRng density str gs x z y =
          chunkColumnElementBytes ch := by
        unfold columnRecord
        rw [hfill]
      rw [hrec]
      set tail := ys.flatMap (columnRecord noiseOfRng density str gs x z) ++ rest with htail
      have hlen : (chunkColumnElementBytes ch).length = 4100 :=
        chunkColumnElementBytes_length ch
      have hbytes : chunkColumnElementBytes ch ++ tail =
          1 :: (ch.transparency % 256) :: (ch.non_air_block_count % 256) ::
            (ch.non_air_block_count / 256 % 256) :: (blocksBytes ch.blocks ++ tail) := by
        simp [chunkColumnElementBytes, u16LEBytes]
      rw [hbytes, readRecords]
      dsimp only
      rw [if_pos rfl]
      rw [if_pos (by
        rw [← hbytes, List.length_append, hlen]
        omega)]
      rw [← hbytes]
      have htake : (chunkColumnElementBytes ch ++ tail).take 4100 =
          chunkColumnElementBytes ch := by
        rw [← hlen, List.take_left]
      have hdrop : (chunkColumnElementBytes ch ++ tail).drop 4100 = tail := by
        rw [← hlen, List.drop_left]
      rw [htake, hdrop]
      have hdrop4 : (chunkColumnElementBytes ch).drop 4 = blocksBytes ch.blocks := by
        simp [chunkColumnElementBytes, u16LEBytes]
      rw [hdrop4, decodeBlocks_blocksBytes]
      rw [ih rest]
      have hget1 : (chunkColumnElementBytes ch).getD 1 0 = ch.transparency := by
        simp [chunkColumnElementBytes, u16LEBytes]
        omega
      have hget2 : (chunkColumnElementBytes ch).getD 2 0 = ch.non_air_block_count % 256 := by
        simp [chunkColumnElementBytes, u16LEBytes]
      have hget3 : (chunkColumnElementBytes ch).getD 3 0 =
          ch.non_air_block_count / 256 % 256 := by
        simp [chunkColumnElementBytes, u16LEBytes]
      rw [hget1, hget2, hget3]
      dsimp only
      have hchunk : (⟨ch.blocks, ch.transparency, false,
            ch.non_air_block_count % 256 + 256 * (ch.non_air_block_count / 256 % 256)⟩ :
            SChunk) = ch := by
        cases ch with
        | mk blocks tr queue cnt =>
          dsimp only at htr hcnt hqueue ⊢
          subst hqueue
          congr 1
          omega
      rw [hchunk]
      simp [hfill]

/-- Claim C8 (amended): a `GenerateColumnReply` message consists of the
chunk X and Z coordinates (4 bytes each) followed by exactly one record
per Y level of the configured range, ordered from the LOWEST Y level to
the HIGHEST (not highest to lowest as the spec says), each record being
either a 1-byte none flag plus 1 pad byte or a 4100-byte chunk payload
(flag, transparency, 2-byte count, 4096 block bytes), followed by the
trailing tag byte; the Simulation reader consumes the records in the same
lowest-to-highest order and reconstructs exactly the generated chunks. -/
theorem generate_column_reply_wire_format (noiseOfRng : List Nat → Perm)
    (density : Perm → Perm → Int → Int → Int → Rat) (str : SBlock → Bool)
    (gs : GeneratorState) (x z : Int) (hx : InI32 x) (hz : InI32 z) :
    (∀ y, (columnRecord noiseOfRng density str gs x z y).length = 2 ∨
       (columnRecord noiseOfRng density str gs x z y).length = 4100) ∧
    readColumnReply gs.lowest_generated_chunk gs.highest_generated_chunk
        (generateColumnReply noiseOfRng density str gs x z) =
      some (x, z,
        (yLevels gs.lowest_generated_chunk gs.highest_generated_chunk).map fun y =>
          (y, (fill_chunk noiseOfRng density str gs.generator ⟨⟨x, y, z⟩⟩).1)) := by
  constructor
  · intro y
    unfold columnRecord
    cases hfill : (fill_chunk noiseOfRng density str gs.generator ⟨⟨x, y, z⟩⟩).1 with
    | none => left; rfl
    | some ch => right; exact chunkColumnElementBytes_length ch
  · unfold generateColumnReply readColumnReply
    set R := (yLevels gs.lowest_generated_chunk gs.highest_generated_chunk).flatMap
      (columnRecord noiseOfRng density str gs x z) with hR
    have hx4 : (i32LEBytes x).length = 4 := i32LEBytes_length x
    have hz4 : (i32LEBytes z).length = 4 := i32LEBytes_length z
    have hassoc : i32LEBytes x ++ i32LEBytes z ++ R ++ [tagGenerateColumnReply] =
        (i32LEBytes x ++ i32LEBytes z) ++ (R ++ [tagGenerateColumnReply]) := by
      simp [List.append_assoc]
    have hlen8 : (i32LEBytes x ++ i32LEBytes z).length = 8 := by
      rw [List.length_append, hx4, hz4]
    rw [hassoc]
    rw [if_pos (by rw [List.length_append, hlen8]; omega)]
    have hdrop8 : ((i32LEBytes x ++ i32LEBytes z) ++ (R ++ [tagGenerateColumnReply])).drop 8 =
        R ++ [tagGenerateColumnReply] := by
      rw [← hlen8, List.drop_left]
    have htake4 : ((i32LEBytes x ++ i32LEBytes z) ++ (R ++ [tagGenerateColumnReply])).take 4 =
        i32LEBytes x := by
      rw [List.append_assoc]
      rw [← hx4, List.take_left]
    have hdrop4 : (((i32LEBytes x ++ i32LEBytes z) ++ (R ++ [tagGenerateColumnReply])).drop 4).take 4 =
        i32LEBytes z := by
      rw [List.append_assoc]
      rw [show (4 : Nat) = (i32LEBytes x).length from hx4.symm, List.drop_left]
      rw [hx4, ← hz4, List.take_left]
    rw [hdrop8, htake4, hdrop4, hR,
      readRecords_roundTrip noiseOfRng density str gs x z _ [tagGenerateColumnReply]]
    rw [i32FromLEBytes_i32LEBytes x hx, i32FromLEBytes_i32LEBytes z hz]
    rfl

/-- Witness for C8 on a two-level column with a constant density. -/
theorem generate_column_reply_wire_format_witness :
    InI32 5 ∧ InI32 (-7) ∧
    readColumnReply (0 : Int) (1 : Int)
        (generateColumnReply constPermOfRng constDensity (fun _ => true)
          ⟨TerrainGenerator.new constPermOfRng 42, 1, 0⟩ 5 (-7)) =
      some (5, -7, (yLevels (0 : Int) (1 : Int)).map fun y =>
        (y, (fill_chunk constPermOfRng constDensity (fun _ => true)
          (TerrainGenerator.new constPermOfRng 42) ⟨⟨5, y, -7⟩⟩).1)) :=
  ⟨by decide, by decide,
   (generate_column_reply_wire_format constPermOfRng constDensity (fun _ => true)
     ⟨TerrainGenerator.new constPermOfRng 42, 1, 0⟩ 5 (-7) (by decide) (by decide)).2⟩

/-- A density field solid below absolute height 16 and empty above;
chunk y=0 generates fully solid, chunk y=1 generates empty. -/
def stepDensity : Perm → Perm → Int → Int → Int → Rat :=
  fun _ _ _ y _ => if y < 16 then 1 else -1

def cexGenState : GeneratorState :=
  ⟨TerrainGenerator.new constPermOfRng 42, 1, 0⟩

theorem cex_fill1_none :
    (fill_chunk constPermOfRng stepDensity (fun _ => true)
      cexGenState.generator ⟨⟨0, 1, 0⟩⟩).1 = none := by
  rw [fill_chunk_none_iff]
  intro x y z
  have h16 : (ChunkPosition.block ⟨⟨0, 1, 0⟩⟩).index.y = 16 := by decide
  rw [h16]
  have hv1 : ((y.val : Int)) < 16 := by exact_mod_cast y.isLt
  unfold classifyVoxel stepDensity wrapping_add wrap32
  split_ifs <;>
    first
      | rfl
      | (exfalso; omega)
      | (exfalso
         rcases ‹_ ∨ _› with h | h
         · norm_num at h
         · have hv : ((y.val : Int)) < 16 := by exact_mod_cast y.isLt
           omega)
      | (exfalso; norm_num at *)

theorem cex_fill0_some :
    ∃ ch, (fill_chunk constPermOfRng stepDensity (fun _ => true)
      cexGenState.generator ⟨⟨0, 0, 0⟩⟩).1 = some ch := by
  have h0 : (ChunkPosition.block ⟨⟨0, 0, 0⟩⟩).index.y = 0 := by decide
  have hne : (fill_chunk constPermOfRng stepDensity (fun _ => true)
      cexGenState.generator ⟨⟨0, 0, 0⟩⟩).1 ≠ none := by
    intro hnone
    rw [fill_chunk_none_iff] at hnone
    have hthis := hnone 0 0 0
    rw [h0] at hthis
    have hvz : ((((0 : Fin 16) : Nat)) : Int) = 0 := by simp
    unfold classifyVoxel stepDensity wrapping_add wrap32 at hthis
    rw [hvz] at hthis
    split_ifs at hthis <;>
      first
        | (simp at hthis
           done)
        | omega
        | (apply ‹¬(_ ∨ _)›
           left
           norm_num)
  exact Option.ne_none_iff_exists'.mp hne

theorem cex_record0_head :
    ∃ restb, columnRecord constPermOfRng stepDensity (fun _ => true) cexGenState 0 0 0 =
      1 :: restb := by
  obtain ⟨ch, hch⟩ := cex_fill0_some
  unfold columnRecord
  rw [hch]
  exact ⟨_, rfl⟩

theorem cex_record1 :
    columnRecord constPermOfRng stepDensity (fun _ => true) cexGenState 0 0 1 = [0, 0] := by
  unfold columnRecord
  rw [cex_fill1_none]

/-- Counterexample to claim C8 as stated: the records are ordered from the
lowest Y level to the highest, not from highest to lowest.  With a
two-level column whose lower chunk is solid and upper chunk empty, byte 8
of the real message is the full-payload flag 1 of the lowest level, while
the spec's highest-to-lowest layout predicts the none flag 0 there. -/
theorem generate_column_reply_order_counterexample :
    (generateColumnReply constPermOfRng stepDensity (fun _ => true) cexGenState 0 0).getD 8 0
        = 1 ∧
    (specColumnReply constPermOfRng stepDensity (fun _ => true) cexGenState 0 0).getD 8 0
        = 0 ∧
    generateColumnReply constPermOfRng stepDensity (fun _ => true) cexGenState 0 0 ≠
      specColumnReply constPermOfRng stepDensity (fun _ => true) cexGenState 0 0 := by
  have hlow : cexGenState.lowest_generated_chunk = 0 := rfl
  have hhigh : cexGenState.highest_generated_chunk = 1 := rfl
  have hy : yLevels (0 : Int) (1 : Int) = [0, 1] := by decide
  have hyr : (yLevels (0 : Int) (1 : Int)).reverse = [1, 0] := by decide
  have hx0 : i32LEBytes 0 = [0, 0, 0, 0] := by decide
  obtain ⟨restb, hrec0⟩ := cex_record0_head
  have hrec1 := cex_record1
  have h1 : (generateColumnReply constPermOfRng stepDensity (fun _ => true)
      cexGenState 0 0).getD 8 0 = 1 := by
    unfold generateColumnReply
    rw [hlow, hhigh, hy, hx0]
    rw [List.flatMap_cons, List.flatMap_cons, List.flatMap_nil]
    rw [hrec0, hrec1]
    rfl
  have h2 : (specColumnReply constPermOfRng stepDensity (fun _ => true)
      cexGenState 0 0).getD 8 0 = 0 := by
    unfold specColumnReply
    rw [hlow, hhigh, hyr, hx0]
    rw [List.flatMap_cons, List.flatMap_cons, List.flatMap_nil]
    rw [hrec0, hrec1]
    rfl
  exact ⟨h1, h2, fun heq => by
    rw [heq] at h1
    exact absurd (h1.symm.trans h2) (by decide)⟩

/-! ## Mesh generation (src/renderer/mesh.rs)

`ChunkMesh::generate` is embedded as a fold of the `add_face` closure over
the exact sequence of add_face invocations the source performs: the
in-chunk triple loop followed by the six neighbour-chunk boundary passes.
Vertex positions and texture coordinates are small integers and halves,
exact in f32, and are modelled as rationals. -/

structure FaceCall where
  x : Fin 16
  y : Fin 16
  z : Fin 16
  face_index : Fin 6
  block : Block
  neighbour : Block
deriving DecidableEq, Repr

structure Vertex where
  pos : Rat × Rat × Rat × Rat
  tex_coord : Rat × Rat
  face_index : Nat
deriving DecidableEq, Repr

/-- The `VERTICES` table (position, texture coordinate). -/
def verticesTable : List ((Rat × Rat × Rat × Rat) × (Rat × Rat)) :=
  [((0, 0, 1, 1), (0, 1)),
   ((1, 0, 1, 1), (1, 1)),
   ((1, 1, 1, 1), (1, 0)),
   ((0, 1, 1, 1), (0, 0)),
   ((0, 1, 0, 1), (1, 0)),
   ((1, 1, 0, 1), (0, 0)),
   ((1, 0, 0, 1), (0, 1)),
   ((0, 0, 0, 1), (1, 1)),
   ((1, 0, 0, 1), (1, 1)),
   ((1, 1, 0, 1), (1, 0)),
   ((1, 1, 1, 1), (0, 0)),
   ((1, 0, 1, 1), (0, 1)),
   ((0, 0, 1, 1), (1, 1)),
   ((0, 1, 1, 1), (1, 0)),
   ((0, 1, 0, 1), (0, 0)),
   ((0, 0, 0, 1), (0, 1)),
   ((1, 1, 0, 1), (1, 0)),
   ((0, 1, 0, 1), (0, 0)),
   ((0, 1, 1, 1), (0, 1)),
   ((1, 1, 1, 1), (1, 1)),
   ((1, 0, 1, 1), (0, 0)),
   ((0, 0, 1, 1), (1, 0)),
   ((0, 0, 0, 1), (1, 1)),
   ((1, 0, 0, 1), (0, 1))]

/-- The `is` index lists selecting six `VERTICES` entries per face. -/
def faceIndices : Fin 6 → List Nat
  | 0 => [8, 9, 10, 10, 11, 8]
  | 1 => [12, 13, 14, 14, 15, 12]
  | 2 => [16, 17, 18, 18, 19, 16]
  | 3 => [20, 21, 22, 22, 23, 20]
  | 4 => [0, 1, 2, 2, 3, 0]
  | 5 => [4, 5, 6, 6, 7, 4]

/-- The per-block-type texture atlas table (the Air row is unreachable in
the source and never selected here either, since `add_face` is only
invoked for non-Air blocks). -/
def textureTable : Block → Fin 6 → Nat × Nat
  | Block.Air, _ => (0, 0)
  | Block.Dirt, 0 => (1, 0)
  | Block.Dirt, 1 => (1, 0)
  | Block.Dirt, 2 => (0, 0)
  | Block.Dirt, 3 => (0, 1)
  | Block.Dirt, 4 => (1, 0)
  | Block.Dirt, 5 => (1, 0)
  | Block.Stone, _ => (1, 1)

/-- The `add_face` closure: when the adjacent block is transparent, append
six indices `offset..offset+5` and the six selected vertices (positions
offset by the voxel coordinate, texture coordinates halved into the
2x2 atlas). -/
def addFace (acc : List Vertex × List Nat) (call : FaceCall) : List Vertex × List Nat :=
  if call.neighbour.transparent then
    let offset := acc.1.length
    let texture := textureTable call.block call.face_index
    (acc.1 ++ (faceIndices call.face_index).map fun i =>
        let v := verticesTable.getD i ((0, 0, 0, 0), (0, 0))
        { pos := (v.1.1 + call.x.val, v.1.2.1 + call.y.val,
                  v.1.2.2.1 + call.z.val, v.1.2.2.2)
          tex_coord := ((v.2.1 + texture.1) / 2, (v.2.2 + texture.2) / 2)
          face_index := call.face_index.val },
     acc.2 ++ (List.range 6).map fun i => i + offset)
  else acc

/-- In-chunk pass, `if x != E { add_face(xyz, 0, block, &chunk.blocks[x + 1][y][z]) }`. -/
def faceCallPosX (c : Chunk) (x y z : Fin 16) : List FaceCall :=
  if h : x.val ≠ 15 then
    [⟨x, y, z, 0, c.blocks x y z, c.blocks ⟨x.val + 1, by omega⟩ y z⟩] else []

/-- In-chunk pass, `if x != 0 { add_face(xyz, 1, block, &chunk.blocks[x - 1][y][z]) }`. -/
def faceCallNegX (c : Chunk) (x y z : Fin 16) : List FaceCall :=
  if h : x.val ≠ 0 then
    [⟨x, y, z, 1, c.blocks x y z, c.blocks ⟨x.val - 1, by omega⟩ y z⟩] else []

/-- In-chunk pass, `if y != E { add_face(xyz, 2, block, &chunk.blocks[x][y + 1][z]) }`. -/
def faceCallPosY (c : Chunk) (x y z : Fin 16) : List FaceCall :=
  if h : y.val ≠ 15 then
    [⟨x, y, z, 2, c.blocks x y z, c.blocks x ⟨y.val + 1, by omega⟩ z⟩] else []

/-- In-chunk pass, `if y != 0 { add_face(xyz, 3, block, &chunk.blocks[x][y - 1][z]) }`. -/
def faceCallNegY (c : Chunk) (x y z : Fin 16) : List FaceCall :=
  if h : y.val ≠ 0 then
    [⟨x, y, z, 3, c.blocks x y z, c.blocks x ⟨y.val - 1, by omega⟩ z⟩] else []

/-- In-chunk pass, `if z != E { add_face(xyz, 4, block, &chunk.blocks[x][y][z + 1]) }`. -/
def faceCallPosZ (c : Chunk) (x y z : Fin 16) : List FaceCall :=
  if h : z.val ≠ 15 then
    [⟨x, y, z, 4, c.blocks x y z, c.blocks x y ⟨z.val + 1, by omega⟩⟩] else []

/-- In-chunk pass, `if z != 0 { add_face(xyz, 5, block, &chunk.blocks[x][y][z - 1]) }`. -/
def faceCallNegZ (c : Chunk) (x y z : Fin 16) : List FaceCall :=
  if h : z.val ≠ 0 then
    [⟨x, y, z, 5, c.blocks x y z, c.blocks x y ⟨z.val - 1, by omega⟩⟩] else []

/-- The six guarded `add_face` calls for one non-air voxel of the in-chunk
pass, in source order (+x, -x, +y, -y, +z, -z). -/
def faceCallsAt (c : Chunk) (x y z : Fin 16) : List FaceCall :=
  faceCallPosX c x y z ++ faceCallNegX c x y z ++
    faceCallPosY c x y z ++ faceCallNegY c x y z ++
    faceCallPosZ c x y z ++ faceCallNegZ c x y z

/-- The in-chunk triple loop of `generate`. -/
def inChunkCalls (c : Chunk) : List FaceCall :=
  (List.finRange 16).flatMap fun x =>
    (List.finRange 16).flatMap fun y =>
      (List.finRange 16).flatMap fun z =>
        if c.blocks x y z = Block.Air then [] else faceCallsAt c x y z

structure ChunkNeighbours where
  pos_x : Chunk
  neg_x : Chunk
  pos_y : Chunk
  neg_y : Chunk
  pos_z : Chunk
  neg_z : Chunk

/-- `make_chunk_face` for the +X boundary layer (x = 15), guarded by the
neighbour's cached NegX transparency bit. -/
def boundaryCallsPosX (c : Chunk) (n : Chunk) : List FaceCall :=
  if n.get_transparency Transparency.NegX then
    (List.finRange 16).flatMap fun y =>
      (List.finRange 16).flatMap fun z =>
        if c.blocks 15 y z = Block.Air then []
        else [⟨15, y, z, 0, c.blocks 15 y z, n.blocks 0 y z⟩]
  else []

/-- `make_chunk_face` for the -X boundary layer. -/
def boundaryCallsNegX (c : Chunk) (n : Chunk) : List FaceCall :=
  if n.get_transparency Transparency.PosX then
    (List.finRange 16).flatMap fun y =>
      (List.finRange 16).flatMap fun z =>
        if c.blocks 0 y z = Block.Air then []
        else [⟨0, y, z, 1, c.blocks 0 y z, n.blocks 15 y z⟩]
  else []

/-- `make_chunk_face` for the +Y boundary layer. -/
def boundaryCallsPosY (c : Chunk) (n : Chunk) : List FaceCall :=
  if n.get_transparency Transparency.NegY then
    (List.finRange 16).flatMap fun x =>
      (List.finRange 16).flatMap fun z =>
        if c.blocks x 15 z = Block.Air then []
        else [⟨x, 15, z, 2, c.blocks x 15 z, n.blocks x 0 z⟩]
  else []

/-- `make_chunk_face` for the -Y boundary layer. -/
def boundaryCallsNegY (c : Chunk) (n : Chunk) : List FaceCall :=
  if n.get_transparency Transparency.PosY then
    (List.finRange 16).flatMap fun x =>
      (List.finRange 16).flatMap fun z =>
        if c.blocks x 0 z = Block.Air then []
        else [⟨x, 0, z, 3, c.blocks x 0 z, n.blocks x 15 z⟩]
  else []

/-- `make_chunk_face` for the +Z boundary layer. -/
def boundaryCallsPosZ (c : Chunk) (n : Chunk) : List FaceCall :=
  if n.get_transparency Transparency.NegZ then
    (List.finRange 16).flatMap fun x =>
      (List.finRange 16).flatMap fun y =>
        if c.blocks x y 15 = Block.Air then []
        else [⟨x, y, 15, 4, c.blocks x y 15, n.blocks x y 0⟩]
  else []

/-- `make_chunk_face` for the -Z boundary layer. -/
def boundaryCallsNegZ (c : Chunk) (n : Chunk) : List FaceCall :=
  if n.get_transparency Transparency.PosZ then
    (List.finRange 16).flatMap fun x =>
      (List.finRange 16).flatMap fun y =>
        if c.blocks x y 0 = Block.Air then []
        else [⟨x, y, 0, 5, c.blocks x y 0, n.blocks x y 15⟩]
  else []

/-- The full `add_face` invocation sequence of `ChunkMesh::generate`. -/
def chunkMeshCalls (c : Chunk) (n : ChunkNeighbours) : List FaceCall :=
  inChunkCalls c ++
    boundaryCallsPosX c n.pos_x ++ boundaryCallsNegX c n.neg_x ++
    boundaryCallsPosY c n.pos_y ++ boundaryCallsNegY c n.neg_y ++
    boundaryCallsPosZ c n.pos_z ++ boundaryCallsNegZ c n.neg_z

/-- `ChunkMesh::generate`. -/
def generateMesh (c : Chunk) (n : ChunkNeighbours) : List Vertex × List Nat :=
  (chunkMeshCalls c n).foldl addFace ([], [])

/-- Number of faces actually emitted from a call sequence. -/
def emittedCount (calls : List FaceCall) : Nat :=
  calls.countP fun call => call.neighbour.transparent

lemma faceIndices_length : ∀ f : Fin 6, (faceIndices f).length = 6 := by decide

lemma addFace_fst_length (acc : List Vertex × List Nat) (call : FaceCall) :
    (addFace acc call).1.length =
      acc.1.length + (if call.neighbour.transparent then 6 else 0) := by
  unfold addFace
  split_ifs with h
  · simp [faceIndices_length call.face_index]
  · simp

lemma addFace_snd_length (acc : List Vertex × List Nat) (call : FaceCall) :
    (addFace acc call).2.length =
      acc.2.length + (if call.neighbour.transparent then 6 else 0) := by
  unfold addFace
  split_ifs with h
  · simp
  · simp

lemma foldl_addFace_lengths (calls : List FaceCall) :
    ∀ acc : List Vertex × List Nat,
      (calls.foldl addFace acc).1.length = acc.1.length + 6 * emittedCount calls ∧
      (calls.foldl addFace acc).2.length = acc.2.length + 6 * emittedCount calls := by
  induction calls with
  | nil => intro acc; simp [emittedCount]
  | cons call rest ih =>
    intro acc
    have h1 := (ih (addFace acc call)).1
    have h2 := (ih (addFace acc call)).2
    have e1 := addFace_fst_length acc call
    have e2 := addFace_snd_length acc call
    constructor
    · rw [List.foldl_cons, h1, e1]
      simp only [emittedCount, List.countP_cons]
      split_ifs <;> simp_all <;> ring
    · rw [List.foldl_cons, h2, e2]
      simp only [emittedCount, List.countP_cons]
      split_ifs <;> simp_all <;> ring

lemma flatMap_eq_nil_of {α β : Type} (l : List α) (f : α → List β)
    (h : ∀ a ∈ l, f a = []) : l.flatMap f = [] := by
  induction l with
  | nil => rfl
  | cons a l ih =>
    rw [List.flatMap_cons, h a (List.mem_cons_self a l), List.nil_append]
    exact ih fun b hb => h b (List.mem_cons_of_mem a hb)

lemma flatMap_eq_single {α β : Type} (l : List α) (f : α → List β) (a0 : α)
    (hm : a0 ∈ l) (hnd : l.Nodup) (h : ∀ a ∈ l, a ≠ a0 → f a = []) :
    l.flatMap f = f a0 := by
  induction l with
  | nil => cases hm
  | cons a l ih =>
    rcases List.mem_cons.mp hm with rfl | hm'
    · rw [List.flatMap_cons,
        flatMap_eq_nil_of l f fun b hb =>
          h b (List.mem_cons_of_mem a0 hb)
            (fun e => (List.nodup_cons.mp hnd).1 (e ▸ hb)),
        List.append_nil]
    · have ha : a ≠ a0 := fun e => (List.nodup_cons.mp hnd).1 (e ▸ hm')
      rw [List.flatMap_cons, h a (List.mem_cons_self a l) ha, List.nil_append]
      exact ih hm' (List.nodup_cons.mp hnd).2
        fun b hb hb0 => h b (List.mem_cons_of_mem a hb) hb0

lemma emittedCount_append (l1 l2 : List FaceCall) :
    emittedCount (l1 ++ l2) = emittedCount l1 + emittedCount l2 :=
  List.countP_append _ _ _

lemma inChunkCalls_single (c : Chunk) (x0 y0 z0 : Fin 16)
    (hsolid : c.blocks x0 y0 z0 ≠ Block.Air)
    (honly : ∀ x y z : Fin 16, (x, y, z) ≠ (x0, y0, z0) → c.blocks x y z = Block.Air) :
    inChunkCalls c = faceCallsAt c x0 y0 z0 := by
  have inner : ∀ x y : Fin 16, (x, y) ≠ (x0, y0) →
      ((List.finRange 16).flatMap fun z =>
        if c.blocks x y z = Block.Air then [] else faceCallsAt c x y z) = [] := by
    intro x y hne
    apply flatMap_eq_nil_of
    intro z _
    rw [honly x y z fun e => hne (congrArg (fun t => (t.1, t.2.1)) e)]
    exact if_pos rfl
  unfold inChunkCalls
  refine (flatMap_eq_single _ _ x0 (List.mem_finRange x0) (List.nodup_finRange 16)
    fun x _ hne => flatMap_eq_nil_of _ _ fun y _ =>
      inner x y fun e => hne (congrArg Prod.fst e)).trans ?_
  refine (flatMap_eq_single _ _ y0 (List.mem_finRange y0) (List.nodup_finRange 16)
    fun y _ hne => inner x0 y fun e => hne (congrArg Prod.snd e)).trans ?_
  refine (flatMap_eq_single _ _ z0 (List.mem_finRange z0) (List.nodup_finRange 16)
    fun z _ hne => ?_).trans ?_
  · rw [honly x0 y0 z fun e => hne (congrArg (fun t => t.2.2) e)]
    exact if_pos rfl
  · exact if_neg hsolid

lemma emittedCount_faceCallPosX (c : Chunk) (x0 y0 z0 : Fin 16)
    (honly : ∀ x y z : Fin 16, (x, y, z) ≠ (x0, y0, z0) → c.blocks x y z = Block.Air) :
    emittedCount (faceCallPosX c x0 y0 z0) = if x0.val = 15 then 0 else 1 := by
  unfold emittedCount faceCallPosX
  by_cases h : x0.val = 15
  · rw [dif_neg (by omega), if_pos h]
    rfl
  · rw [dif_pos h, if_neg h]
    have hb : c.blocks ⟨x0.val + 1, by omega⟩ y0 z0 = Block.Air :=
      honly _ y0 z0 (by
        intro e
        exact absurd (congrArg (fun t => Fin.val t.1) e) (by simp))
    rw [hb]
    rfl

lemma emittedCount_faceCallNegX (c : Chunk) (x0 y0 z0 : Fin 16)
    (honly : ∀ x y z : Fin 16, (x, y, z) ≠ (x0, y0, z0) → c.blocks x y z = Block.Air) :
    emittedCount (faceCallNegX c x0 y0 z0) = if x0.val = 0 then 0 else 1 := by
  unfold emittedCount faceCallNegX
  by_cases h : x0.val = 0
  · rw [dif_neg (by omega), if_pos h]
    rfl
  · rw [dif_pos h, if_neg h]
    have hb : c.blocks ⟨x0.val - 1, by omega⟩ y0 z0 = Block.Air :=
      honly _ y0 z0 (by
        intro e
        exact absurd (congrArg (fun t => Fin.val t.1) e) (by simp; omega))
    rw [hb]
    rfl

lemma emittedCount_faceCallPosY (c : Chunk) (x0 y0 z0 : Fin 16)
    (honly : ∀ x y z : Fin 16, (x, y, z) ≠ (x0, y0, z0) → c.blocks x y z = Block.Air) :
    emittedCount (faceCallPosY c x0 y0 z0) = if y0.val = 15 then 0 else 1 := by
  unfold emittedCount faceCallPosY
  by_cases h : y0.val = 15
  · rw [dif_neg (by omega), if_pos h]
    rfl
  · rw [dif_pos h, if_neg h]
    have hb : c.blocks x0 ⟨y0.val + 1, by omega⟩ z0 = Block.Air :=
      honly x0 _ z0 (by
        intro e
        exact absurd (congrArg (fun t => Fin.val t.2.1) e) (by simp))
    rw [hb]
    rfl

lemma emittedCount_faceCallNegY (c : Chunk) (x0 y0 z0 : Fin 16)
    (honly : ∀ x y z : Fin 16, (x, y, z) ≠ (x0, y0, z0) → c.blocks x y z = Block.Air) :
    emittedCount (faceCallNegY c x0 y0 z0) = if y0.val = 0 then 0 else 1 := by
  unfold emittedCount faceCallNegY
  by_cases h : y0.val = 0
  · rw [dif_neg (by omega), if_pos h]
    rfl
  · rw [dif_pos h, if_neg h]
    have hb : c.blocks x0 ⟨y0.val - 1, by omega⟩ z0 = Block.Air :=
      honly x0 _ z0 (by
        intro e
        exact absurd (congrArg (fun t => Fin.val t.2.1) e) (by simp; omega))
    rw [hb]
    rfl

lemma emittedCount_faceCallPosZ (c : Chunk) (x0 y0 z0 : Fin 16)
    (honly : ∀ x y z : Fin 16, (x, y, z) ≠ (x0, y0, z0) → c.blocks x y z = Block.Air) :
    emittedCount (faceCallPosZ c x0 y0 z0) = if z0.val = 15 then 0 else 1 := by
  unfold emittedCount faceCallPosZ
  by_cases h : z0.val = 15
  · rw [dif_neg (by omega), if_pos h]
    rfl
  · rw [dif_pos h, if_neg h]
    have hb : c.blocks x0 y0 ⟨z0.val + 1, by omega⟩ = Block.Air :=
      honly x0 y0 _ (by
        intro e
        exact absurd (congrArg (fun t => Fin.val t.2.2) e) (by simp))
    rw [hb]
    rfl

lemma emittedCount_faceCallNegZ (c : Chunk) (x0 y0 z0 : Fin 16)
    (honly : ∀ x y z : Fin 16, (x, y, z) ≠ (x0, y0, z0) → c.blocks x y z = Block.Air) :
    emittedCount (faceCallNegZ c x0 y0 z0) = if z0.val = 0 then 0 else 1 := by
  unfold emittedCount faceCallNegZ
  by_cases h : z0.val = 0
  · rw [dif_neg (by omega), if_pos h]
    rfl
  · rw [dif_pos h, if_neg h]
    have hb : c.blocks x0 y0 ⟨z0.val - 1, by omega⟩ = Block.Air :=
      honly x0 y0 _ (by
        intro e
        exact absurd (congrArg (fun t => Fin.val t.2.2) e) (by simp; omega))
    rw [hb]
    rfl

lemma emittedCount_faceCallsAt_single (c : Chunk) (x0 y0 z0 : Fin 16)
    (honly : ∀ x y z : Fin 16, (x, y, z) ≠ (x0, y0, z0) → c.blocks x y z = Block.Air) :
    emittedCount (faceCallsAt c x0 y0 z0) =
      ((((((if x0.val = 15 then 0 else 1) + (if x0.val = 0 then 0 else 1)) +
        (if y0.val = 15 then 0 else 1)) + (if y0.val = 0 then 0 else 1)) +
        (if z0.val = 15 then 0 else 1)) + (if z0.val = 0 then 0 else 1)) := by
  unfold faceCallsAt
  rw [emittedCount_append, emittedCount_append, emittedCount_append,
    emittedCount_append, emittedCount_append,
    emittedCount_faceCallPosX c x0 y0 z0 honly,
    emittedCount_faceCallNegX c x0 y0 z0 honly,
    emittedCount_faceCallPosY c x0 y0 z0 honly,
    emittedCount_faceCallNegY c x0 y0 z0 honly,
    emittedCount_faceCallPosZ c x0 y0 z0 honly,
    emittedCount_faceCallNegZ c x0 y0 z0 honly]

lemma countP_layer_single (p : FaceCall → Bool) (g : Fin 16 → Fin 16 → Block)
    (mk : Fin 16 → Fin 16 → FaceCall) (b0 c0 : Fin 16)
    (hair : ∀ b c : Fin 16, (b, c) ≠ (b0, c0) → g b c = Block.Air)
    (hsolid : g b0 c0 ≠ Block.Air) :
    List.countP p ((List.finRange 16).flatMap fun b =>
      (List.finRange 16).flatMap fun c =>
        if g b c = Block.Air then [] else [mk b c]) =
      if p (mk b0 c0) then 1 else 0 := by
  have h0 := flatMap_eq_single (List.finRange 16)
    (fun b => (List.finRange 16).flatMap fun c =>
      if g b c = Block.Air then [] else [mk b c]) b0
    (List.mem_finRange b0) (List.nodup_finRange 16)
    (fun b _ hb => flatMap_eq_nil_of _ _ fun c _ => by
      rw [hair b c fun e => hb (congrArg Prod.fst e)]
      exact if_pos rfl)
  rw [h0]
  have h1 := flatMap_eq_single (List.finRange 16)
    (fun c => if g b0 c = Block.Air then [] else [mk b0 c]) c0
    (List.mem_finRange c0) (List.nodup_finRange 16)
    (fun c _ hc => by
      show (if g b0 c = Block.Air then [] else [mk b0 c]) = []
      rw [hair b0 c fun e => hc (congrArg Prod.snd e)]
      exact if_pos rfl)
  show List.countP p ((List.finRange 16).flatMap fun c =>
    if g b0 c = Block.Air then [] else [mk b0 c]) = _
  rw [h1]
  show List.countP p (if g b0 c0 = Block.Air then [] else [mk b0 c0]) = _
  rw [if_neg hsolid]
  simp [List.countP_cons]

lemma countP_layer_nil (p : FaceCall → Bool) (g : Fin 16 → Fin 16 → Block)
    (mk : Fin 16 → Fin 16 → FaceCall)
    (hair : ∀ b c : Fin 16, g b c = Block.Air) :
    List.countP p ((List.finRange 16).flatMap fun b =>
      (List.finRange 16).flatMap fun c =>
        if g b c = Block.Air then [] else [mk b c]) = 0 := by
  rw [flatMap_eq_nil_of (List.finRange 16)
    (fun b => (List.finRange 16).flatMap fun c =>
      if g b c = Block.Air then [] else [mk b c])
    fun b _ => flatMap_eq_nil_of _ _ fun c _ => by
      rw [hair b c]
      exact if_pos rfl]
  rfl

lemma emittedCount_boundaryPosX_single (c n : Chunk) (x0 y0 z0 : Fin 16)
    (hsolid : c.blocks x0 y0 z0 ≠ Block.Air)
    (honly : ∀ x y z : Fin 16, (x, y, z) ≠ (x0, y0, z0) → c.blocks x y z = Block.Air)
    (hmask : x0.val = 15 → n.get_transparency Transparency.NegX = true)
    (hnb : x0.val = 15 → (n.blocks 0 y0 z0).transparent = true) :
    emittedCount (boundaryCallsPosX c n) = if x0.val = 15 then 1 else 0 := by
  unfold emittedCount boundaryCallsPosX
  by_cases h : x0.val = 15
  · have hx0 : (15 : Fin 16) = x0 := Fin.ext (by rw [h]; rfl)
    rw [if_pos (hmask h), if_pos h]
    have hc := countP_layer_single (fun call => call.neighbour.transparent)
      (fun y z => c.blocks 15 y z)
      (fun y z => ⟨15, y, z, 0, c.blocks 15 y z, n.blocks 0 y z⟩) y0 z0
      (fun y z hne => honly 15 y z fun e => hne (congrArg (fun t => (t.2.1, t.2.2)) e))
      (by rw [hx0]; exact hsolid)
    exact hc.trans (by simp [hnb h])
  · rw [if_neg h]
    have hv : (15 : Fin 16).val = 15 := rfl
    have hcell : ∀ y z : Fin 16, c.blocks 15 y z = Block.Air := fun y z =>
      honly 15 y z (by
        intro e
        apply h
        rw [← hv]
        exact (congrArg (fun t => Fin.val t.1) e).symm)
    by_cases hm : n.get_transparency Transparency.NegX = true
    · rw [if_pos hm]
      exact countP_layer_nil _ (fun y z => c.blocks 15 y z)
        (fun y z => ⟨15, y, z, 0, c.blocks 15 y z, n.blocks 0 y z⟩) hcell
    · rw [if_neg hm]
      rfl

lemma emittedCount_boundaryNegX_single (c n : Chunk) (x0 y0 z0 : Fin 16)
    (hsolid : c.blocks x0 y0 z0 ≠ Block.Air)
    (honly : ∀ x y z : Fin 16, (x, y, z) ≠ (x0, y0, z0) → c.blocks x y z = Block.Air)
    (hmask : x0.val = 0 → n.get_transparency Transparency.PosX = true)
    (hnb : x0.val = 0 → (n.blocks 15 y0 z0).transparent = true) :
    emittedCount (boundaryCallsNegX c n) = if x0.val = 0 then 1 else 0 := by
  unfold emittedCount boundaryCallsNegX
  by_cases h : x0.val = 0
  · have hx0 : (0 : Fin 16) = x0 := Fin.ext (by rw [h]; rfl)
    rw [if_pos (hmask h), if_pos h]
    have hc := countP_layer_single (fun call => call.neighbour.transparent)
      (fun y z => c.blocks 0 y z)
      (fun y z => ⟨0, y, z, 1, c.blocks 0 y z, n.blocks 15 y z⟩) y0 z0
      (fun y z hne => honly 0 y z fun e => hne (congrArg (fun t => (t.2.1, t.2.2)) e))
      (by rw [hx0]; exact hsolid)
    exact hc.trans (by simp [hnb h])
  · rw [if_neg h]
    have hv : (0 : Fin 16).val = 0 := rfl
    have hcell : ∀ y z : Fin 16, c.blocks 0 y z = Block.Air := fun y z =>
      honly 0 y z (by
        intro e
        apply h
        rw [← hv]
        exact (congrArg (fun t => Fin.val t.1) e).symm)
    by_cases hm : n.get_transparency Transparency.PosX = true
    · rw [if_pos hm]
      exact countP_layer_nil _ (fun y z => c.blocks 0 y z)
        (fun y z => ⟨0, y, z, 1, c.blocks 0 y z, n.blocks 15 y z⟩) hcell
    · rw [if_neg hm]
      rfl

lemma emittedCount_boundaryPosY_single (c n : Chunk) (x0 y0 z0 : Fin 16)
    (hsolid : c.blocks x0 y0 z0 ≠ Block.Air)
    (honly : ∀ x y z : Fin 16, (x, y, z) ≠ (x0, y0, z0) → c.blocks x y z = Block.Air)
    (hmask : y0.val = 15 → n.get_transparency Transparency.NegY = true)
    (hnb : y0.val = 15 → (n.blocks x0 0 z0).transparent = true) :
    emittedCount (boundaryCallsPosY c n) = if y0.val = 15 then 1 else 0 := by
  unfold emittedCount boundaryCallsPosY
  by_cases h : y0.val = 15
  · have hy0 : (15 : Fin 16) = y0 := Fin.ext (by rw [h]; rfl)
    rw [if_pos (hmask h), if_pos h]
    have hc := countP_layer_single (fun call => call.neighbour.transparent)
      (fun x z => c.blocks x 15 z)
      (fun x z => ⟨x, 15, z, 2, c.blocks x 15 z, n.blocks x 0 z⟩) x0 z0
      (fun x z hne => honly x 15 z fun e => hne (congrArg (fun t => (t.1, t.2.2)) e))
      (by rw [hy0]; exact hsolid)
    exact hc.trans (by simp [hnb h])
  · rw [if_neg h]
    have hv : (15 : Fin 16).val = 15 := rfl
    have hcell : ∀ x z : Fin 16, c.blocks x 15 z = Block.Air := fun x z =>
      honly x 15 z (by
        intro e
        apply h
        rw [← hv]
        exact (congrArg (fun t => Fin.val t.2.1) e).symm)
    by_cases hm : n.get_transparency Transparency.NegY = true
    · rw [if_pos hm]
      exact countP_layer_nil _ (fun x z => c.blocks x 15 z)
        (fun x z => ⟨x, 15, z, 2, c.blocks x 15 z, n.blocks x 0 z⟩) hcell
    · rw [if_neg hm]
      rfl

lemma emittedCount_boundaryNegY_single (c n : Chunk) (x0 y0 z0 : Fin 16)
    (hsolid : c.blocks x0 y0 z0 ≠ Block.Air)
    (honly : ∀ x y z : Fin 16, (x, y, z) ≠ (x0, y0, z0) → c.blocks x y z = Block.Air)
    (hmask : y0.val = 0 → n.get_transparency Transparency.PosY = true)
    (hnb : y0.val = 0 → (n.blocks x0 15 z0).transparent = true) :
    emittedCount (boundaryCallsNegY c n) = if y0.val = 0 then 1 else 0 := by
  unfold emittedCount boundaryCallsNegY
  by_cases h : y0.val = 0
  · have hy0 : (0 : Fin 16) = y0 := Fin.ext (by rw [h]; rfl)
    rw [if_pos (hmask h), if_pos h]
    have hc := countP_layer_single (fun call => call.neighbour.transparent)
      (fun x z => c.blocks x 0 z)
      (fun x z => ⟨x, 0, z, 3, c.blocks x 0 z, n.blocks x 15 z⟩) x0 z0
      (fun x z hne => honly x 0 z fun e => hne (congrArg (fun t => (t.1, t.2.2)) e))
      (by rw [hy0]; exact hsolid)
    exact hc.trans (by simp [hnb h])
  · rw [if_neg h]
    have hv : (0 : Fin 16).val = 0 := rfl
    have hcell : ∀ x z : Fin 16, c.blocks x 0 z = Block.Air := fun x z =>
      honly x 0 z (by
        intro e
        apply h
        rw [← hv]
        exact (congrArg (fun t => Fin.val t.2.1) e).symm)
    by_cases hm : n.get_transparency Transparency.PosY = true
    · rw [if_pos hm]
      exact countP_layer_nil _ (fun x z => c.blocks x 0 z)
        (fun x z => ⟨x, 0, z, 3, c.blocks x 0 z, n.blocks x 15 z⟩) hcell
    · rw [if_neg hm]
      rfl

lemma emittedCount_boundaryPosZ_single (c n : Chunk) (x0 y0 z0 : Fin 16)
    (hsolid : c.blocks x0 y0 z0 ≠ Block.Air)
    (honly : ∀ x y z : Fin 16, (x, y, z) ≠ (x0, y0, z0) → c.blocks x y z = Block.Air)
    (hmask : z0.val = 15 → n.get_transparency Transparency.NegZ = true)
    (hnb : z0.val = 15 → (n.blocks x0 y0 0).transparent = true) :
    emittedCount (boundaryCallsPosZ c n) = if z0.val = 15 then 1 else 0 := by
  unfold emittedCount boundaryCallsPosZ
  by_cases h : z0.val = 15
  · have hz0 : (15 : Fin 16) = z0 := Fin.ext (by rw [h]; rfl)
    rw [if_pos (hmask h), if_pos h]
    have hc := countP_layer_single (fun call => call.neighbour.transparent)
      (fun x y => c.blocks x y 15)
      (fun x y => ⟨x, y, 15, 4, c.blocks x y 15, n.blocks x y 0⟩) x0 y0
      (fun x y hne => honly x y 15 fun e => hne (congrArg (fun t => (t.1, t.2.1)) e))
      (by rw [hz0]; exact hsolid)
    exact hc.trans (by simp [hnb h])
  · rw [if_neg h]
    have hv : (15 : Fin 16).val = 15 := rfl
    have hcell : ∀ x y : Fin 16, c.blocks x y 15 = Block.Air := fun x y =>
      honly x y 15 (by
        intro e
        apply h
        rw [← hv]
        exact (congrArg (fun t => Fin.val t.2.2) e).symm)
    by_cases hm : n.get_transparency Transparency.NegZ = true
    · rw [if_pos hm]
      exact countP_layer_nil _ (fun x y => c.blocks x y 15)
        (fun x y => ⟨x, y, 15, 4, c.blocks x y 15, n.blocks x y 0⟩) hcell
    · rw [if_neg hm]
      rfl

lemma emittedCount_boundaryNegZ_single (c n : Chunk) (x0 y0 z0 : Fin 16)
    (hsolid : c.blocks x0 y0 z0 ≠ Block.Air)
    (honly : ∀ x y z : Fin 16, (x, y, z) ≠ (x0, y0, z0) → c.blocks x y z = Block.Air)
    (hmask : z0.val = 0 → n.get_transparency Transparency.PosZ = true)
    (hnb : z0.val = 0 → (n.blocks x0 y0 15).transparent = true) :
    emittedCount (boundaryCallsNegZ c n) = if z0.val = 0 then 1 else 0 := by
  unfold emittedCount boundaryCallsNegZ
  by_cases h : z0.val = 0
  · have hz0 : (0 : Fin 16) = z0 := Fin.ext (by rw [h]; rfl)
    rw [if_pos (hmask h), if_pos h]
    have hc := countP_layer_single (fun call => call.neighbour.transparent)
      (fun x y => c.blocks x y 0)
      (fun x y => ⟨x, y, 0, 5, c.blocks x y 0, n.blocks x y 15⟩) x0 y0
      (fun x y hne => honly x y 0 fun e => hne (congrArg (fun t => (t.1, t.2.1)) e))
      (by rw [hz0]; exact hsolid)
    exact hc.trans (by simp [hnb h])
  · rw [if_neg h]
    have hv : (0 : Fin 16).val = 0 := rfl
    have hcell : ∀ x y : Fin 16, c.blocks x y 0 = Block.Air := fun x y =>
      honly x y 0 (by
        intro e
        apply h
        rw [← hv]
        exact (congrArg (fun t => Fin.val t.2.2) e).symm)
    by_cases hm : n.get_transparency Transparency.PosZ = true
    · rw [if_pos hm]
      exact countP_layer_nil _ (fun x y => c.blocks x y 0)
        (fun x y => ⟨x, y, 0, 5, c.blocks x y 0, n.blocks x y 15⟩) hcell
    · rw [if_neg hm]
      rfl

lemma generateMesh_lengths (c : Chunk) (n : ChunkNeighbours) :
    (generateMesh c n).1.length = 6 * emittedCount (chunkMeshCalls c n) ∧
    (generateMesh c n).2.length = 6 * emittedCount (chunkMeshCalls c n) := by
  have h := foldl_addFace_lengths (chunkMeshCalls c n) ([], [])
  unfold generateMesh
  simpa using h

lemma emittedCount_single_block (c : Chunk) (n : ChunkNeighbours) (x0 y0 z0 : Fin 16)
    (hsolid : c.blocks x0 y0 z0 ≠ Block.Air)
    (honly : ∀ x y z : Fin 16, (x, y, z) ≠ (x0, y0, z0) → c.blocks x y z = Block.Air)
    (hpx : x0.val = 15 → n.pos_x.get_transparency Transparency.NegX = true ∧
      (n.pos_x.blocks 0 y0 z0).transparent = true)
    (hnx : x0.val = 0 → n.neg_x.get_transparency Transparency.PosX = true ∧
      (n.neg_x.blocks 15 y0 z0).transparent = true)
    (hpy : y0.val = 15 → n.pos_y.get_transparency Transparency.NegY = true ∧
      (n.pos_y.blocks x0 0 z0).transparent = true)
    (hny : y0.val = 0 → n.neg_y.get_transparency Transparency.PosY = true ∧
      (n.neg_y.blocks x0 15 z0).transparent = true)
    (hpz : z0.val = 15 → n.pos_z.get_transparency Transparency.NegZ = true ∧
      (n.pos_z.blocks x0 y0 0).transparent = true)
    (hnz : z0.val = 0 → n.neg_z.get_transparency Transparency.PosZ = true ∧
      (n.neg_z.blocks x0 y0 15).transparent = true) :
    emittedCount (chunkMeshCalls c n) = 6 := by
  unfold chunkMeshCalls
  rw [emittedCount_append, emittedCount_append, emittedCount_append,
    emittedCount_append, emittedCount_append, emittedCount_append,
    inChunkCalls_single c x0 y0 z0 hsolid honly,
    emittedCount_faceCallsAt_single c x0 y0 z0 honly,
    emittedCount_boundaryPosX_single c n.pos_x x0 y0 z0 hsolid honly
      (fun h => (hpx h).1) (fun h => (hpx h).2),
    emittedCount_boundaryNegX_single c n.neg_x x0 y0 z0 hsolid honly
      (fun h => (hnx h).1) (fun h => (hnx h).2),
    emittedCount_boundaryPosY_single c n.pos_y x0 y0 z0 hsolid honly
      (fun h => (hpy h).1) (fun h => (hpy h).2),
    emittedCount_boundaryNegY_single c n.neg_y x0 y0 z0 hsolid honly
      (fun h => (hny h).1) (fun h => (hny h).2),
    emittedCount_boundaryPosZ_single c n.pos_z x0 y0 z0 hsolid honly
      (fun h => (hpz h).1) (fun h => (hpz h).2),
    emittedCount_boundaryNegZ_single c n.neg_z x0 y0 z0 hsolid honly
      (fun h => (hnz h).1) (fun h => (hnz h).2)]
  by_cases h1 : x0.val = 15 <;> by_cases h2 : x0.val = 0 <;>
    by_cases h3 : y0.val = 15 <;> by_cases h4 : y0.val = 0 <;>
    by_cases h5 : z0.val = 15 <;> by_cases h6 : z0.val = 0 <;>
    first
      | omega
      | (simp [h1, h2, h3, h4, h5, h6])

lemma mem_faceCallPosX {c : Chunk} {x y z : Fin 16} {call : FaceCall}
    (h : call ∈ faceCallPosX c x y z) :
    call.x = x ∧ call.y = y ∧ call.z = z ∧
      ∃ hx : x.val < 15, call.neighbour = c.blocks ⟨x.val + 1, by omega⟩ y z := by
  unfold faceCallPosX at h
  by_cases hc : x.val ≠ 15
  · rw [dif_pos hc] at h
    have he := List.mem_singleton.mp h
    subst he
    exact ⟨rfl, rfl, rfl, by omega, rfl⟩
  · rw [dif_neg hc] at h
    exact absurd h (List.not_mem_nil _)

lemma mem_faceCallNegX {c : Chunk} {x y z : Fin 16} {call : FaceCall}
    (h : call ∈ faceCallNegX c x y z) :
    call.x = x ∧ call.y = y ∧ call.z = z ∧
      ∃ hx : 0 < x.val, call.neighbour = c.blocks ⟨x.val - 1, by omega⟩ y z := by
  unfold faceCallNegX at h
  by_cases hc : x.val ≠ 0
  · rw [dif_pos hc] at h
    have he := List.mem_singleton.mp h
    subst he
    exact ⟨rfl, rfl, rfl, by omega, rfl⟩
  · rw [dif_neg hc] at h
    exact absurd h (List.not_mem_nil _)

lemma mem_faceCallPosY {c : Chunk} {x y z : Fin 16} {call : FaceCall}
    (h : call ∈ faceCallPosY c x y z) :
    call.x = x ∧ call.y = y ∧ call.z = z ∧
      ∃ hy : y.val < 15, call.neighbour = c.blocks x ⟨y.val + 1, by omega⟩ z := by
  unfold faceCallPosY at h
  by_cases hc : y.val ≠ 15
  · rw [dif_pos hc] at h
    have he := List.mem_singleton.mp h
    subst he
    exact ⟨rfl, rfl, rfl, by omega, rfl⟩
  · rw [dif_neg hc] at h
    exact absurd h (List.not_mem_nil _)

lemma mem_faceCallNegY {c : Chunk} {x y z : Fin 16} {call : FaceCall}
    (h : call ∈ faceCallNegY c x y z) :
    call.x = x ∧ call.y = y ∧ call.z = z ∧
      ∃ hy : 0 < y.val, call.neighbour = c.blocks x ⟨y.val - 1, by omega⟩ z := by
  unfold faceCallNegY at h
  by_cases hc : y.val ≠ 0
  · rw [dif_pos hc] at h
    have he := List.mem_singleton.mp h
    subst he
    exact ⟨rfl, rfl, rfl, by omega, rfl⟩
  · rw [dif_neg hc] at h
    exact absurd h (List.not_mem_nil _)

lemma mem_faceCallPosZ {c : Chunk} {x y z : Fin 16} {call : FaceCall}
    (h : call ∈ faceCallPosZ c x y z) :
    call.x = x ∧ call.y = y ∧ call.z = z ∧
      ∃ hz : z.val < 15, call.neighbour = c.blocks x y ⟨z.val + 1, by omega⟩ := by
  unfold faceCallPosZ at h
  by_cases hc : z.val ≠ 15
  · rw [dif_pos hc] at h
    have he := List.mem_singleton.mp h
    subst he
    exact ⟨rfl, rfl, rfl, by omega, rfl⟩
  · rw [dif_neg hc] at h
    exact absurd h (List.not_mem_nil _)

lemma mem_faceCallNegZ {c : Chunk} {x y z : Fin 16} {call : FaceCall}
    (h : call ∈ faceCallNegZ c x y z) :
    call.x = x ∧ call.y = y ∧ call.z = z ∧
      ∃ hz : 0 < z.val, call.neighbour = c.blocks x y ⟨z.val - 1, by omega⟩ := by
  unfold faceCallNegZ at h
  by_cases hc : z.val ≠ 0
  · rw [dif_pos hc] at h
    have he := List.mem_singleton.mp h
    subst he
    exact ⟨rfl, rfl, rfl, by omega, rfl⟩
  · rw [dif_neg hc] at h
    exact absurd h (List.not_mem_nil _)

lemma mem_boundaryCallsPosX {c n : Chunk} {call : FaceCall}
    (h : call ∈ boundaryCallsPosX c n) :
    call.x = (15 : Fin 16) ∧ call.neighbour = n.blocks 0 call.y call.z := by
  unfold boundaryCallsPosX at h
  by_cases hm : n.get_transparency Transparency.NegX = true
  · rw [if_pos hm] at h
    rcases List.mem_flatMap.mp h with ⟨y, _, hy⟩
    rcases List.mem_flatMap.mp hy with ⟨z, _, hz⟩
    by_cases ha : c.blocks 15 y z = Block.Air
    · rw [if_pos ha] at hz
      exact absurd hz (List.not_mem_nil _)
    · rw [if_neg ha] at hz
      have he := List.mem_singleton.mp hz
      subst he
      exact ⟨rfl, rfl⟩
  · rw [if_neg hm] at h
    exact absurd h (List.not_mem_nil _)

lemma mem_boundaryCallsNegX {c n : Chunk} {call : FaceCall}
    (h : call ∈ boundaryCallsNegX c n) :
    call.x = (0 : Fin 16) ∧ call.neighbour = n.blocks 15 call.y call.z := by
  unfold boundaryCallsNegX at h
  by_cases hm : n.get_transparency Transparency.PosX = true
  · rw [if_pos hm] at h
    rcases List.mem_flatMap.mp h with ⟨y, _, hy⟩
    rcases List.mem_flatMap.mp hy with ⟨z, _, hz⟩
    by_cases ha : c.blocks 0 y z = Block.Air
    · rw [if_pos ha] at hz
      exact absurd hz (List.not_mem_nil _)
    · rw [if_neg ha] at hz
      have he := List.mem_singleton.mp hz
      subst he
      exact ⟨rfl, rfl⟩
  · rw [if_neg hm] at h
    exact absurd h (List.not_mem_nil _)

lemma mem_boundaryCallsPosY {c n : Chunk} {call : FaceCall}
    (h : call ∈ boundaryCallsPosY c n) :
    call.y = (15 : Fin 16) ∧ call.neighbour = n.blocks call.x 0 call.z := by
  unfold boundaryCallsPosY at h
  by_cases hm : n.get_transparency Transparency.NegY = true
  · rw [if_pos hm] at h
    rcases List.mem_flatMap.mp h with ⟨x, _, hx⟩
    rcases List.mem_flatMap.mp hx with ⟨z, _, hz⟩
    by_cases ha : c.blocks x 15 z = Block.Air
    · rw [if_pos ha] at hz
      exact absurd hz (List.not_mem_nil _)
    · rw [if_neg ha] at hz
      have he := List.mem_singleton.mp hz
      subst he
      exact ⟨rfl, rfl⟩
  · rw [if_neg hm] at h
    exact absurd h (List.not_mem_nil _)

lemma mem_boundaryCallsNegY {c n : Chunk} {call : FaceCall}
    (h : call ∈ boundaryCallsNegY c n) :
    call.y = (0 : Fin 16) ∧ call.neighbour = n.blocks call.x 15 call.z := by
  unfold boundaryCallsNegY at h
  by_cases hm : n.get_transparency Transparency.PosY = true
  · rw [if_pos hm] at h
    rcases List.mem_flatMap.mp h with ⟨x, _, hx⟩
    rcases List.mem_flatMap.mp hx with ⟨z, _, hz⟩
    by_cases ha : c.blocks x 0 z = Block.Air
    · rw [if_pos ha] at hz
      exact absurd hz (List.not_mem_nil _)
    · rw [if_neg ha] at hz
      have he := List.mem_singleton.mp hz
      subst he
      exact ⟨rfl, rfl⟩
  · rw [if_neg hm] at h
    exact absurd h (List.not_mem_nil _)

lemma mem_boundaryCallsPosZ {c n : Chunk} {call : FaceCall}
    (h : call ∈ boundaryCallsPosZ c n) :
    call.z = (15 : Fin 16) ∧ call.neighbour = n.blocks call.x call.y 0 := by
  unfold boundaryCallsPosZ at h
  by_cases hm : n.get_transparency Transparency.NegZ = true
  · rw [if_pos hm] at h
    rcases List.mem_flatMap.mp h with ⟨x, _, hx⟩
    rcases List.mem_flatMap.mp hx with ⟨y, _, hy⟩
    by_cases ha : c.blocks x y 15 = Block.Air
    · rw [if_pos ha] at hy
      exact absurd hy (List.not_mem_nil _)
    · rw [if_neg ha] at hy
      have he := List.mem_singleton.mp hy
      subst he
      exact ⟨rfl, rfl⟩
  · rw [if_neg hm] at h
    exact absurd h (List.not_mem_nil _)

lemma mem_boundaryCallsNegZ {c n : Chunk} {call : FaceCall}
    (h : call ∈ boundaryCallsNegZ c n) :
    call.z = (0 : Fin 16) ∧ call.neighbour = n.blocks call.x call.y 15 := by
  unfold boundaryCallsNegZ at h
  by_cases hm : n.get_transparency Transparency.PosZ = true
  · rw [if_pos hm] at h
    rcases List.mem_flatMap.mp h with ⟨x, _, hx⟩
    rcases List.mem_flatMap.mp hx with ⟨y, _, hy⟩
    by_cases ha : c.blocks x y 0 = Block.Air
    · rw [if_pos ha] at hy
      exact absurd hy (List.not_mem_nil _)
    · rw [if_neg ha] at hy
      have he := List.mem_singleton.mp hy
      subst he
      exact ⟨rfl, rfl⟩
  · rw [if_neg hm] at h
    exact absurd h (List.not_mem_nil _)

lemma single_block_opaque_neighbours (c : Chunk) (n : ChunkNeighbours) (x0 y0 z0 : Fin 16)
    (h1 : ∀ h : x0.val < 15, (c.blocks ⟨x0.val + 1, by omega⟩ y0 z0).transparent = false)
    (h2 : ∀ h : 0 < x0.val, (c.blocks ⟨x0.val - 1, by omega⟩ y0 z0).transparent = false)
    (h3 : ∀ h : y0.val < 15, (c.blocks x0 ⟨y0.val + 1, by omega⟩ z0).transparent = false)
    (h4 : ∀ h : 0 < y0.val, (c.blocks x0 ⟨y0.val - 1, by omega⟩ z0).transparent = false)
    (h5 : ∀ h : z0.val < 15, (c.blocks x0 y0 ⟨z0.val + 1, by omega⟩).transparent = false)
    (h6 : ∀ h : 0 < z0.val, (c.blocks x0 y0 ⟨z0.val - 1, by omega⟩).transparent = false)
    (b1 : x0.val = 15 → (n.pos_x.blocks 0 y0 z0).transparent = false)
    (b2 : x0.val = 0 → (n.neg_x.blocks 15 y0 z0).transparent = false)
    (b3 : y0.val = 15 → (n.pos_y.blocks x0 0 z0).transparent = false)
    (b4 : y0.val = 0 → (n.neg_y.blocks x0 15 z0).transparent = false)
    (b5 : z0.val = 15 → (n.pos_z.blocks x0 y0 0).transparent = false)
    (b6 : z0.val = 0 → (n.neg_z.blocks x0 y0 15).transparent = false) :
    ∀ call ∈ chunkMeshCalls c n, call.x = x0 → call.y = y0 → call.z = z0 →
      call.neighbour.transparent = false := by
  intro call hmem hx hy hz
  unfold chunkMeshCalls at hmem
  rcases List.mem_append.mp hmem with hmem | hc
  case inr =>
    obtain ⟨e0, hnb⟩ := mem_boundaryCallsNegZ hc
    have hzv : z0.val = 0 := by rw [← hz, e0]; rfl
    rw [hnb, hx, hy]
    exact b6 hzv
  rcases List.mem_append.mp hmem with hmem | hc
  case inr =>
    obtain ⟨e0, hnb⟩ := mem_boundaryCallsPosZ hc
    have hzv : z0.val = 15 := by rw [← hz, e0]; rfl
    rw [hnb, hx, hy]
    exact b5 hzv
  rcases List.mem_append.mp hmem with hmem | hc
  case inr =>
    obtain ⟨e0, hnb⟩ := mem_boundaryCallsNegY hc
    have hyv : y0.val = 0 := by rw [← hy, e0]; rfl
    rw [hnb, hx, hz]
    exact b4 hyv
  rcases List.mem_append.mp hmem with hmem | hc
  case inr =>
    obtain ⟨e0, hnb⟩ := mem_boundaryCallsPosY hc
    have hyv : y0.val = 15 := by rw [← hy, e0]; rfl
    rw [hnb, hx, hz]
    exact b3 hyv
  rcases List.mem_append.mp hmem with hmem | hc
  case inr =>
    obtain ⟨e0, hnb⟩ := mem_boundaryCallsNegX hc
    have hxv : x0.val = 0 := by rw [← hx, e0]; rfl
    rw [hnb, hy, hz]
    exact b2 hxv
  rcases List.mem_append.mp hmem with hmem | hc
  case inr =>
    obtain ⟨e0, hnb⟩ := mem_boundaryCallsPosX hc
    have hxv : x0.val = 15 := by rw [← hx, e0]; rfl
    rw [hnb, hy, hz]
    exact b1 hxv
  unfold inChunkCalls at hmem
  rcases List.mem_flatMap.mp hmem with ⟨x, _, hx1⟩
  rcases List.mem_flatMap.mp hx1 with ⟨y, _, hy1⟩
  rcases List.mem_flatMap.mp hy1 with ⟨z, _, hz1⟩
  by_cases ha : c.blocks x y z = Block.Air
  · rw [if_pos ha] at hz1
    exact absurd hz1 (List.not_mem_nil _)
  rw [if_neg ha] at hz1
  unfold faceCallsAt at hz1
  rcases List.mem_append.mp hz1 with hz1 | hc
  swap
  · obtain ⟨ex, ey, ez, hlt, hnb⟩ := mem_faceCallNegZ hc
    obtain rfl : x = x0 := ex.symm.trans hx
    obtain rfl : y = y0 := ey.symm.trans hy
    obtain rfl : z = z0 := ez.symm.trans hz
    rw [hnb]
    exact h6 hlt
  rcases List.mem_append.mp hz1 with hz1 | hc
  swap
  · obtain ⟨ex, ey, ez, hlt, hnb⟩ := mem_faceCallPosZ hc
    obtain rfl : x = x0 := ex.symm.trans hx
    obtain rfl : y = y0 := ey.symm.trans hy
    obtain rfl : z = z0 := ez.symm.trans hz
    rw [hnb]
    exact h5 hlt
  rcases List.mem_append.mp hz1 with hz1 | hc
  swap
  · obtain ⟨ex, ey, ez, hlt, hnb⟩ := mem_faceCallNegY hc
    obtain rfl : x = x0 := ex.symm.trans hx
    obtain rfl : y = y0 := ey.symm.trans hy
    obtain rfl : z = z0 := ez.symm.trans hz
    rw [hnb]
    exact h4 hlt
  rcases List.mem_append.mp hz1 with hz1 | hc
  swap
  · obtain ⟨ex, ey, ez, hlt, hnb⟩ := mem_faceCallPosY hc
    obtain rfl : x = x0 := ex.symm.trans hx
    obtain rfl : y = y0 := ey.symm.trans hy
    obtain rfl : z = z0 := ez.symm.trans hz
    rw [hnb]
    exact h3 hlt
  rcases List.mem_append.mp hz1 with hz1 | hc
  swap
  · obtain ⟨ex, ey, ez, hlt, hnb⟩ := mem_faceCallNegX hc
    obtain rfl : x = x0 := ex.symm.trans hx
    obtain rfl : y = y0 := ey.symm.trans hy
    obtain rfl : z = z0 := ez.symm.trans hz
    rw [hnb]
    exact h2 hlt
  obtain ⟨ex, ey, ez, hlt, hnb⟩ := mem_faceCallPosX hz1
  obtain rfl : x = x0 := ex.symm.trans hx
  obtain rfl : y = y0 := ey.symm.trans hy
  obtain rfl : z = z0 := ez.symm.trans hz
  rw [hnb]
  exact h1 hlt

/-- Claim C5, amended: `ChunkMesh::generate` always emits 6 vertices and 6
indices per emitted face (its `add_face` maps the six-entry index list over
`VERTICES`, duplicating two corner vertices, rather than pushing the four
distinct corners). Consequently a chunk containing exactly one solid block
whose six adjacent blocks (in the same chunk, or in the appropriate
neighbour chunk with the neighbour's cached transparency bit set towards
this chunk) are all transparent produces exactly 6 faces totalling 36
vertices and 36 indices, not 24 vertices; and a solid block whose six
adjacent blocks are all opaque contributes no faces at all. -/
theorem mesh_face_count (c : Chunk) (n : ChunkNeighbours) (x0 y0 z0 : Fin 16) :
    ((generateMesh c n).1.length = 6 * emittedCount (chunkMeshCalls c n) ∧
     (generateMesh c n).2.length = 6 * emittedCount (chunkMeshCalls c n)) ∧
    (c.blocks x0 y0 z0 ≠ Block.Air →
     (∀ x y z : Fin 16, (x, y, z) ≠ (x0, y0, z0) → c.blocks x y z = Block.Air) →
     (x0.val = 15 → n.pos_x.get_transparency Transparency.NegX = true ∧
       (n.pos_x.blocks 0 y0 z0).transparent = true) →
     (x0.val = 0 → n.neg_x.get_transparency Transparency.PosX = true ∧
       (n.neg_x.blocks 15 y0 z0).transparent = true) →
     (y0.val = 15 → n.pos_y.get_transparency Transparency.NegY = true ∧
       (n.pos_y.blocks x0 0 z0).transparent = true) →
     (y0.val = 0 → n.neg_y.get_transparency Transparency.PosY = true ∧
       (n.neg_y.blocks x0 15 z0).transparent = true) →
     (z0.val = 15 → n.pos_z.get_transparency Transparency.NegZ = true ∧
       (n.pos_z.blocks x0 y0 0).transparent = true) →
     (z0.val = 0 → n.neg_z.get_transparency Transparency.PosZ = true ∧
       (n.neg_z.blocks x0 y0 15).transparent = true) →
     emittedCount (chunkMeshCalls c n) = 6 ∧
       (generateMesh c n).1.length = 36 ∧ (generateMesh c n).2.length = 36) ∧
    ((∀ h : x0.val < 15, (c.blocks ⟨x0.val + 1, by omega⟩ y0 z0).transparent = false) →
     (∀ h : 0 < x0.val, (c.blocks ⟨x0.val - 1, by omega⟩ y0 z0).transparent = false) →
     (∀ h : y0.val < 15, (c.blocks x0 ⟨y0.val + 1, by omega⟩ z0).transparent = false) →
     (∀ h : 0 < y0.val, (c.blocks x0 ⟨y0.val - 1, by omega⟩ z0).transparent = false) →
     (∀ h : z0.val < 15, (c.blocks x0 y0 ⟨z0.val + 1, by omega⟩).transparent = false) →
     (∀ h : 0 < z0.val, (c.blocks x0 y0 ⟨z0.val - 1, by omega⟩).transparent = false) →
     (x0.val = 15 → (n.pos_x.blocks 0 y0 z0).transparent = false) →
     (x0.val = 0 → (n.neg_x.blocks 15 y0 z0).transparent = false) →
     (y0.val = 15 → (n.pos_y.blocks x0 0 z0).transparent = false) →
     (y0.val = 0 → (n.neg_y.blocks x0 15 z0).transparent = false) →
     (z0.val = 15 → (n.pos_z.blocks x0 y0 0).transparent = false) →
     (z0.val = 0 → (n.neg_z.blocks x0 y0 15).transparent = false) →
     ∀ call ∈ chunkMeshCalls c n, call.x = x0 → call.y = y0 → call.z = z0 →
       call.neighbour.transparent = false) := by
  refine ⟨generateMesh_lengths c n, ?_, ?_⟩
  · intro hsolid honly hpx hnx hpy hny hpz hnz
    have h6 := emittedCount_single_block c n x0 y0 z0 hsolid honly hpx hnx hpy hny hpz hnz
    have hl := generateMesh_lengths c n
    exact ⟨h6, by rw [hl.1, h6], by rw [hl.2, h6]⟩
  · intro g1 g2 g3 g4 g5 g6 b1 b2 b3 b4 b5 b6
    exact single_block_opaque_neighbours c n x0 y0 z0 g1 g2 g3 g4 g5 g6 b1 b2 b3 b4 b5 b6

/-- A chunk whose only non-air block is Stone at (8, 8, 8). -/
def c5chunk : Chunk :=
  { blocks := fun x y z => if x = 8 ∧ y = 8 ∧ z = 8 then Block.Stone else Block.Air
    transparency := 0
    in_mesh_queue := false
    non_air_block_count := 1 }

/-- An all-air chunk with all cached transparency bits set. -/
def c5air : Chunk :=
  { blocks := fun _ _ _ => Block.Air
    transparency := 255
    in_mesh_queue := false
    non_air_block_count := 0 }

def c5nbrs : ChunkNeighbours :=
  ⟨c5air, c5air, c5air, c5air, c5air, c5air⟩

/-- An all-stone chunk. -/
def c5solid : Chunk :=
  { blocks := fun _ _ _ => Block.Stone
    transparency := 0
    in_mesh_queue := false
    non_air_block_count := 4096 }

/-- Claim C5 counterexample: for a single Stone block at (8, 8, 8) in an
otherwise air chunk surrounded by all-air neighbour chunks, `generate`
produces 36 vertices — not the 24 the claim states — because each face
pushes six vertices (four corners with two of them duplicated). -/
theorem mesh_face_count_counterexample :
    c5chunk.blocks 8 8 8 ≠ Block.Air ∧
    (∀ x y z : Fin 16, (x, y, z) ≠ (8, 8, 8) → c5chunk.blocks x y z = Block.Air) ∧
    (∀ x y z : Fin 16, (c5air.blocks x y z).transparent = true) ∧
    (generateMesh c5chunk c5nbrs).1.length = 36 ∧
    ¬((generateMesh c5chunk c5nbrs).1.length = 24) := by
  have h6 : emittedCount (chunkMeshCalls c5chunk c5nbrs) = 6 :=
    emittedCount_single_block c5chunk c5nbrs 8 8 8 (by decide) (by decide) (by decide)
      (by decide) (by decide) (by decide) (by decide) (by decide)
  have hlen := (generateMesh_lengths c5chunk c5nbrs).1
  refine ⟨by decide, by decide, by decide, by rw [hlen, h6], by rw [hlen, h6]; omega⟩

/-- Witness for C5 at concrete inputs: the single-block scenario gives 6
faces, 36 vertices and 36 indices; in the all-stone chunk every generated
face call at (8, 8, 8) has an opaque neighbouring block. -/
theorem mesh_face_count_witness :
    c5chunk.blocks 8 8 8 ≠ Block.Air ∧
    (emittedCount (chunkMeshCalls c5chunk c5nbrs) = 6 ∧
      (generateMesh c5chunk c5nbrs).1.length = 36 ∧
      (generateMesh c5chunk c5nbrs).2.length = 36) ∧
    (∀ call ∈ chunkMeshCalls c5solid c5nbrs,
      call.x = 8 → call.y = 8 → call.z = 8 → call.neighbour.transparent = false) := by
  refine ⟨by decide, ?_, ?_⟩
  · exact (mesh_face_count c5chunk c5nbrs 8 8 8).2.1 (by decide) (by decide) (by decide)
      (by decide) (by decide) (by decide) (by decide) (by decide)
  · exact (mesh_face_count c5solid c5nbrs 8 8 8).2.2 (fun h => rfl)
      (fun h => rfl) (fun h => rfl) (fun h => rfl)
      (fun h => rfl) (fun h => rfl) (by decide) (by decide)
      (by decide) (by decide) (by decide) (by decide)
